import Mathlib

/-!
Formal model of the amortization engine of the buy-vs-rent repository.

The repository contains two near-identical engine variants:
`src/house.py` (payment rate `(1+rate)^(1/12)-1`, loop rate
`(1+rate/2)^(2/12)-1`, rounding to 2 decimal digits) and
`src/src/house.py` (periodic rate `rate/12` throughout, rounding to 0
digits, plus a tax-deduction overlay).  Machine floating point is modelled
by exact field arithmetic; Python's `round(x, d)` is modelled by
round-half-to-even at `d` digits applied to the exact value.  The loop and
payment definitions are polymorphic over a linear ordered field with a
floor so that the rational-rate variant can be evaluated exactly over `ℚ`
while the irrational rates of `src/house.py` are handled over `ℝ`.
-/

set_option maxRecDepth 10000

section Defs

variable {α : Type} [LinearOrderedField α] [FloorRing α]

/-- Round to the nearest integer with ties to even: the behaviour of
Python's built-in `round` on an exact value. -/
def roundHalfEven (x : α) : ℤ :=
  if Int.fract x < 1 / 2 then ⌊x⌋
  else if 1 / 2 < Int.fract x then ⌊x⌋ + 1
  else if Even ⌊x⌋ then ⌊x⌋ else ⌊x⌋ + 1

/-- Python's `round(x, d)`: rounding at `d` decimal digits, ties to even. -/
def pyRound (d : ℕ) (x : α) : α :=
  (roundHalfEven (x * 10 ^ d) : α) / 10 ^ d

/-- One row of the generated schedule: the `OrderedDict` yielded per period
by `Mortgage.amortize.amortizdict` (src/house.py lines 171-182,
src/src/house.py lines 186-197).  `date` is a calendar month index. -/
structure PeriodRec (α : Type) where
  date : ℕ
  period : ℕ
  begBalance : α
  payment : α
  principal : α
  interest : α
  additionalPayment : α
  endBalance : α
deriving DecidableEq

/-- Mutable loop state of `amortizdict`: the running balance together with
the two payment variables `pmt` and `adp`, which the loop body reassigns
through `min`. -/
structure MState (α : Type) where
  beg : α
  pmt : α
  adp : α
deriving DecidableEq

/-- One iteration of the `while end_balance > 0` loop body (src/house.py
lines 159-186, src/src/house.py lines 174-201), with rounding digit count
`d` (2 in src/house.py, 0 in src/src/house.py) and periodic interest rate
`r`:
`interest = round(r*beg, d)`; `pmt = min(pmt, beg + interest)`;
`principal = pmt - interest`; `adp = min(adp, beg - principal)`;
`end_balance = beg - (principal + adp)`. -/
def amortStep (d : ℕ) (r : α) (s : MState α) (per dt : ℕ) :
    PeriodRec α × MState α :=
  let interest := pyRound d (r * s.beg)
  let pmt := min s.pmt (s.beg + interest)
  let principal := pmt - interest
  let adp := min s.adp (s.beg - principal)
  let endBalance := s.beg - (principal + adp)
  (⟨dt, per, s.beg, pmt, principal, interest, adp, endBalance⟩,
   ⟨endBalance, pmt, adp⟩)

/-- Records produced by the first `fuel` iterations of the generator loop.
The Python loop has no iteration bound of its own; `amortTrace` exposes
whatever records have been yielded so far, whether or not the loop ever
exits. -/
def amortTrace (d : ℕ) (r : α) (fuel : ℕ) (s : MState α) (per dt : ℕ) :
    List (PeriodRec α) :=
  match fuel with
  | 0 => []
  | fuel + 1 =>
    if s.beg ≤ 0 then []
    else
      let st := amortStep d r s per dt
      st.1 :: amortTrace d r fuel st.2 (per + 1) (dt + 1)

/-- Complete run of the generator loop: `some records` when the guard
`end_balance > 0` fails within `fuel` iterations (the generator is
exhausted), `none` when the loop is still running after `fuel`
iterations. -/
def amortRun (d : ℕ) (r : α) (fuel : ℕ) (s : MState α) (per dt : ℕ) :
    Option (List (PeriodRec α)) :=
  match fuel with
  | 0 => if s.beg ≤ 0 then some [] else none
  | fuel + 1 =>
    if s.beg ≤ 0 then some []
    else
      let st := amortStep d r s per dt
      (amortRun d r fuel st.2 (per + 1) (dt + 1)).map (fun l => st.1 :: l)

/-- numpy_financial.pmt with `fv = 0`, `when = 'end'`: the level payment
`-pv*r*(1+r)^n/((1+r)^n - 1)`, and `-pv/n` in the degenerate `rate == 0`
case. -/
def npf_pmt (r : α) (n : ℕ) (pv : α) : α :=
  if r = 0 then -(pv / n) else -(pv * r * (1 + r) ^ n / ((1 + r) ^ n - 1))

/-- Mortgage.monthly_payment of src/house.py (lines 97-116).  The periodic
rate computed there is the float `(1 + rate)^(1/12) - 1`, passed here as
`rp` and characterized over `ℝ` by `PayRateV1`; the result is
`-round(npf.pmt(rp, years*12, principal), 2)`. -/
def monthly_paymentV1 (rp : α) (years : ℕ) (principal : α) : α :=
  -(pyRound 2 (npf_pmt rp (years * 12) principal))

/-- Mortgage.monthly_payment of src/src/house.py (lines 112-130): periodic
rate `rate/12`, rounded to 0 digits. -/
def monthly_paymentV2 (rate : α) (years : ℕ) (principal : α) : α :=
  -(pyRound 0 (npf_pmt (rate / 12) (years * 12) principal))

/-- Mortgage.amortize of src/house.py (lines 135-186): the loop accrues
interest at the float `(1 + ((1+rate/2)^2 - 1))^(1/12) - 1` (lines
149-150), passed here as `rl` and characterized by `LoopRateV1`, while the
payment was computed by `monthly_payment` at the different rate `rp`.
`today` is the month index of `date.today()`; the first period is dated one
month later and periods advance by one month. -/
def amortizeV1 (principal addl : α) (years : ℕ) (rp rl : α)
    (today fuel : ℕ) : Option (List (PeriodRec α)) :=
  amortRun 2 rl fuel
    ⟨principal, monthly_paymentV1 rp years principal, addl⟩ 1 (today + 1)

/-- Mortgage.amortize of src/src/house.py (lines 149-201), schedule part:
periodic rate `rate/12`, rounding to 0 digits. -/
def amortizeV2 (principal addl rate : α) (years today fuel : ℕ) :
    Option (List (PeriodRec α)) :=
  amortRun 0 (rate / 12) fuel
    ⟨principal, monthly_paymentV2 rate years principal, addl⟩ 1 (today + 1)

/-- Trace variant of `amortizeV2`: the records yielded by the first `fuel`
iterations of the src/src/house.py loop. -/
def amortizeV2T (principal addl rate : α) (years today fuel : ℕ) :
    List (PeriodRec α) :=
  amortTrace 0 (rate / 12) fuel
    ⟨principal, monthly_paymentV2 rate years principal, addl⟩ 1 (today + 1)

/-- Total interest paid over a schedule. -/
def sumInterest (l : List (PeriodRec α)) : α :=
  (l.map PeriodRec.interest).sum

/-- A schedule row without its date column (used to state that everything
except the date is independent of the ambient invocation date). -/
def stripDate (rcd : PeriodRec α) : ℕ × α × α × α × α × α × α :=
  (rcd.period, rcd.begBalance, rcd.payment, rcd.principal, rcd.interest,
   rcd.additionalPayment, rcd.endBalance)

/-- Characterization of the float `(1 + rate)^(1/12) - 1` computed in
Mortgage.monthly_payment (src/house.py line 110): the unique real `r > -1`
with `(1+r)^12 = 1 + rate` (the positive-base real power). -/
def PayRateV1 (rate r : ℝ) : Prop :=
  -1 < r ∧ (1 + r) ^ (12 : ℕ) = 1 + rate

/-- Characterization of the float `(1 + ((1+rate/2)^2 - 1))^(1/12) - 1`
computed in the amortize loop (src/house.py lines 149-150): the unique real
`r > -1` with `(1+r)^12 = (1+rate/2)^2`. -/
def LoopRateV1 (rate r : ℝ) : Prop :=
  -1 < r ∧ (1 + r) ^ (12 : ℕ) = (1 + rate / 2) ^ (2 : ℕ)

/-- Validity of a loan specification as the specification defines it:
positive principal, positive term, and `annual_rate ≥ -1`. -/
def ValidLoanSpec (principal rate : ℚ) (years : ℕ) : Prop :=
  0 < principal ∧ 0 < years ∧ -1 ≤ rate

instance (principal rate : ℚ) (years : ℕ) :
    Decidable (ValidLoanSpec principal rate years) := by
  unfold ValidLoanSpec; infer_instance

/-- Termination of the src/src/house.py generator loop: some number of
iterations exhausts it. -/
def TerminatesV2 (principal addl rate : ℚ) (years today : ℕ) : Prop :=
  ∃ fuel, (amortizeV2 principal addl rate years today fuel).isSome

/-- Round-half-to-even of the fraction `n / q` (`q > 0`) in pure integer
arithmetic, so that concrete schedules can be evaluated by kernel
reduction (`ℚ` arithmetic does not reduce in the kernel).  `n / q` is
integer floor division here since `q > 0`, and `n % q` the nonnegative
remainder; `f + f % 2` is the even neighbour at a tie. -/
def zround (n q : ℤ) : ℤ :=
  if 2 * (n % q) < q then n / q
  else if q < 2 * (n % q) then n / q + 1
  else n / q + (n / q) % 2

/-- Integer-scaled mirror of `amortStep`: balances carry an implicit factor
`10^d` and the periodic rate is the fraction `rn / rd`. -/
def amortStepZ (rn rd B Pm A : ℤ) (per dt : ℕ) : PeriodRec ℤ × (ℤ × ℤ × ℤ) :=
  let I := zround (rn * B) rd
  let Pm2 := min Pm (B + I)
  let Pr := Pm2 - I
  let A2 := min A (B - Pr)
  let E := B - (Pr + A2)
  (⟨dt, per, B, Pm2, Pr, I, A2, E⟩, (E, Pm2, A2))

/-- Integer-scaled mirror of `amortRun`. -/
def amortRunZ (rn rd : ℤ) (fuel : ℕ) (B Pm A : ℤ) (per dt : ℕ) :
    Option (List (PeriodRec ℤ)) :=
  match fuel with
  | 0 => if B ≤ 0 then some [] else none
  | fuel + 1 =>
    if B ≤ 0 then some []
    else
      let st := amortStepZ rn rd B Pm A per dt
      (amortRunZ rn rd fuel st.2.1 st.2.2.1 st.2.2.2 (per + 1) (dt + 1)).map
        (fun l => st.1 :: l)

/-- Integer-scaled mirror of `amortTrace`. -/
def amortTraceZ (rn rd : ℤ) (fuel : ℕ) (B Pm A : ℤ) (per dt : ℕ) :
    List (PeriodRec ℤ) :=
  match fuel with
  | 0 => []
  | fuel + 1 =>
    if B ≤ 0 then []
    else
      let st := amortStepZ rn rd B Pm A per dt
      st.1 :: amortTraceZ rn rd fuel st.2.1 st.2.2.1 st.2.2.2 (per + 1) (dt + 1)

/-- Interval variant of `amortRunZ`: runs the loop once while checking at
every period that the rounded interest is identical at the two rate bounds
`lo` and `hi`, so a single evaluation certifies the schedule for every
rate between them. -/
def amortRunZI (lo hi rd : ℤ) (fuel : ℕ) (B Pm A : ℤ) (per dt : ℕ) :
    Option (List (PeriodRec ℤ)) :=
  match fuel with
  | 0 => if B ≤ 0 then some [] else none
  | fuel + 1 =>
    if B ≤ 0 then some []
    else if zround (hi * B) rd = zround (lo * B) rd then
      let st := amortStepZ lo rd B Pm A per dt
      (amortRunZI lo hi rd fuel st.2.1 st.2.2.1 st.2.2.2
        (per + 1) (dt + 1)).map (fun l => st.1 :: l)
    else none

/-- Undo the `10^d` scaling of an integer-scaled schedule row. -/
def unscaleRec (d : ℕ) (rcd : PeriodRec ℤ) : PeriodRec ℚ :=
  ⟨rcd.date, rcd.period, (rcd.begBalance : ℚ) / 10 ^ d,
   (rcd.payment : ℚ) / 10 ^ d, (rcd.principal : ℚ) / 10 ^ d,
   (rcd.interest : ℚ) / 10 ^ d, (rcd.additionalPayment : ℚ) / 10 ^ d,
   (rcd.endBalance : ℚ) / 10 ^ d⟩

/-- Total interest of an integer-scaled schedule. -/
def sumInterestZ (l : List (PeriodRec ℤ)) : ℤ :=
  (l.map PeriodRec.interest).sum

/-- Cast a rational schedule row into any ordered field (used to transport
exactly evaluated schedules to the real-rate runs of src/house.py). -/
def castRec (rcd : PeriodRec ℚ) : PeriodRec α :=
  ⟨rcd.date, rcd.period, (rcd.begBalance : α), (rcd.payment : α),
   (rcd.principal : α), (rcd.interest : α), (rcd.additionalPayment : α),
   (rcd.endBalance : α)⟩

/-- Python exception kinds reachable in the modelled code. -/
inductive PyErr where
  | typeError
  | keyError
deriving DecidableEq

/-- Python's built-in `all` applied to `Mortgage.monthly_fictitious_income`
(src/src/house.py line 226).  The field is documented as a float and
defaults to `None`; `all` demands an iterable, so on either `None` or a
number it raises `TypeError`.  Its boolean value is therefore never
produced for this field. -/
def py_all (x : Option α) : Except PyErr Bool :=
  match x with
  | none => Except.error PyErr.typeError
  | some _ => Except.error PyErr.typeError

/-- A schedule row extended by the tax-overlay columns that
src/src/house.py lines 227-233 add to the dataframe. -/
structure TaxRec (α : Type) where
  base : PeriodRec α
  taxDeduction : α
  netInterest : α
  totalPayment : α
deriving DecidableEq

/-- Tax columns per row, as computed by src/src/house.py lines 227-233 with
the hardcoded `deduction_rate = 0.3707`:
`Tax deduction = round(0.3707*(fict - Interest), 0)`;
`Net interest = Interest + Tax deduction`;
`total_payment = Payment + Additional_payment + Tax deduction`. -/
def taxColumns (fict : α) (rcd : PeriodRec α) : TaxRec α :=
  let td := pyRound 0 ((3707 / 10000) * (fict - rcd.interest))
  ⟨rcd, td, rcd.interest + td, rcd.payment + rcd.additionalPayment + td⟩

/-- Mortgage.amortize of src/src/house.py in full, including the
tax-deduction block (lines 225-233): the schedule dataframe is built first,
then `if all(self.monthly_fictitious_income)` is evaluated, which raises
`TypeError` for the scalar-or-`None` field.  Were the guard to yield
`True`, the tax columns would be added; were it to yield `False`, line 232
would still read the absent `Tax deduction` column and raise `KeyError`. -/
def amortizeV2Full (principal addl rate : α) (years today fuel : ℕ)
    (fict : Option α) : Except PyErr (Option (List (TaxRec α))) :=
  let df := amortizeV2 principal addl rate years today fuel
  match py_all fict with
  | Except.error e => Except.error e
  | Except.ok true => Except.ok (df.map (List.map (taxColumns (fict.getD 0))))
  | Except.ok false => Except.error PyErr.keyError

end Defs

section RoundLemmas

variable {α : Type} [LinearOrderedField α] [FloorRing α]

theorem floor_le_roundHalfEven (x : α) : ⌊x⌋ ≤ roundHalfEven x := by
  unfold roundHalfEven; split_ifs <;> omega

theorem roundHalfEven_le_floor_add_one (x : α) : roundHalfEven x ≤ ⌊x⌋ + 1 := by
  unfold roundHalfEven; split_ifs <;> omega

theorem fract_eq_self_sub_floor (x : α) : Int.fract x = x - ⌊x⌋ := rfl

theorem le_roundHalfEven (x : α) : x - 1 / 2 ≤ (roundHalfEven x : α) := by
  have hlt := Int.lt_floor_add_one x
  unfold roundHalfEven
  split_ifs with h1 h2 h3 <;>
    rw [fract_eq_self_sub_floor] at * <;> push_cast <;> linarith

theorem roundHalfEven_le (x : α) : (roundHalfEven x : α) ≤ x + 1 / 2 := by
  have hle := Int.floor_le x
  unfold roundHalfEven
  split_ifs with h1 h2 h3 <;>
    rw [fract_eq_self_sub_floor] at * <;> push_cast <;> linarith

theorem roundHalfEven_mono {x y : α} (h : x ≤ y) :
    roundHalfEven x ≤ roundHalfEven y := by
  rcases lt_or_le ⌊x⌋ ⌊y⌋ with hf | hf
  · calc roundHalfEven x ≤ ⌊x⌋ + 1 := roundHalfEven_le_floor_add_one x
      _ ≤ ⌊y⌋ := by omega
      _ ≤ roundHalfEven y := floor_le_roundHalfEven y
  · have hfe : ⌊y⌋ = ⌊x⌋ := le_antisymm hf (Int.floor_mono h)
    have hfr : Int.fract x ≤ Int.fract y := by
      rw [fract_eq_self_sub_floor, fract_eq_self_sub_floor, hfe]
      linarith
    unfold roundHalfEven
    rw [hfe]
    split_ifs <;> first | omega | linarith

theorem roundHalfEven_nonneg {x : α} (h : 0 ≤ x) : 0 ≤ roundHalfEven x := by
  have : (0 : ℤ) ≤ ⌊x⌋ := Int.floor_nonneg.mpr h
  have := floor_le_roundHalfEven x
  omega

theorem roundHalfEven_intCast (n : ℤ) : roundHalfEven ((n : α)) = n := by
  unfold roundHalfEven
  rw [Int.fract_intCast, Int.floor_intCast]
  norm_num

theorem fract_ratCast (q : ℚ) : Int.fract ((q : α)) = ((Int.fract q : ℚ) : α) := by
  rw [fract_eq_self_sub_floor, fract_eq_self_sub_floor, Rat.floor_cast]
  push_cast
  ring

theorem roundHalfEven_ratCast (q : ℚ) :
    roundHalfEven ((q : α)) = roundHalfEven q := by
  have h12 : ((1 / 2 : ℚ) : α) = 1 / 2 := by push_cast; ring
  have c1 : (Int.fract ((q : α)) < 1 / 2) ↔ (Int.fract q < 1 / 2) := by
    rw [fract_ratCast, ← h12, Rat.cast_lt]
  have c2 : ((1 : α) / 2 < Int.fract ((q : α))) ↔ ((1 : ℚ) / 2 < Int.fract q) := by
    rw [fract_ratCast, ← h12, Rat.cast_lt]
  unfold roundHalfEven
  rw [Rat.floor_cast]
  simp only [c1, c2]

theorem pyRound_ratCast (d : ℕ) (q : ℚ) :
    pyRound d ((q : α)) = ((pyRound d q : ℚ) : α) := by
  unfold pyRound
  have h : ((q : α)) * 10 ^ d = (((q * 10 ^ d : ℚ) : α)) := by push_cast; ring
  rw [h, roundHalfEven_ratCast]
  push_cast
  ring

theorem pyRound_mono (d : ℕ) {x y : α} (h : x ≤ y) :
    pyRound d x ≤ pyRound d y := by
  unfold pyRound
  have h10 : (0 : α) < 10 ^ d := by positivity
  rw [div_le_div_iff_of_pos_right h10]
  exact_mod_cast roundHalfEven_mono (mul_le_mul_of_nonneg_right h h10.le)

theorem pyRound_nonneg (d : ℕ) {x : α} (h : 0 ≤ x) : 0 ≤ pyRound d x := by
  unfold pyRound
  have h10 : (0 : α) < 10 ^ d := by positivity
  apply div_nonneg _ h10.le
  exact_mod_cast roundHalfEven_nonneg (by positivity)

theorem pyRound_le_add_half (d : ℕ) (x : α) : pyRound d x ≤ x + 1 / 2 := by
  unfold pyRound
  have h10 : (1 : α) ≤ 10 ^ d := by
    calc (1 : α) = 1 ^ d := (one_pow d).symm
    _ ≤ 10 ^ d := pow_le_pow_left (by norm_num) (by norm_num) d
  have h10p : (0 : α) < 10 ^ d := by positivity
  have hb := roundHalfEven_le (x * 10 ^ d)
  rw [div_le_iff h10p]
  nlinarith

theorem zround_eq (n q : ℤ) (hq : 0 < q) :
    zround n q = roundHalfEven ((n : ℚ) / q) := by
  have hq0 : (0 : ℚ) < (q : ℚ) := by exact_mod_cast hq
  have hrep : q * (n / q) + n % q = n := Int.ediv_add_emod n q
  have hm0 : 0 ≤ n % q := Int.emod_nonneg n hq.ne'
  have hmq : n % q < q := Int.emod_lt_of_pos n hq
  have hsplit : (n : ℚ) / q = ((n / q : ℤ) : ℚ) + ((n % q : ℤ) : ℚ) / q := by
    have hcast : ((q * (n / q) + n % q : ℤ) : ℚ) = (n : ℚ) := by
      exact_mod_cast congrArg (fun z : ℤ => (z : ℚ)) hrep
    rw [← hcast]
    push_cast
    field_simp
    ring
  have hfl : ⌊(n : ℚ) / q⌋ = n / q := by
    rw [Int.floor_eq_iff]
    constructor
    · rw [hsplit]
      have : (0 : ℚ) ≤ ((n % q : ℤ) : ℚ) / q := by
        apply div_nonneg _ hq0.le
        exact_mod_cast hm0
      linarith
    · rw [hsplit]
      have : ((n % q : ℤ) : ℚ) / q < 1 := by
        rw [div_lt_one hq0]
        exact_mod_cast hmq
      linarith
  have hfra : Int.fract ((n : ℚ) / q) = ((n % q : ℤ) : ℚ) / q := by
    rw [fract_eq_self_sub_floor, hfl, hsplit]
    ring
  have c1 : (Int.fract ((n : ℚ) / q) < 1 / 2) ↔ (2 * (n % q) < q) := by
    rw [hfra, div_lt_iff hq0]
    constructor <;> intro hh
    · exact_mod_cast (by linarith : (2 : ℚ) * ((n % q : ℤ) : ℚ) < (q : ℚ))
    · have : (2 : ℚ) * ((n % q : ℤ) : ℚ) < (q : ℚ) := by exact_mod_cast hh
      linarith
  have c2 : ((1 : ℚ) / 2 < Int.fract ((n : ℚ) / q)) ↔ (q < 2 * (n % q)) := by
    rw [hfra, lt_div_iff hq0]
    constructor <;> intro hh
    · exact_mod_cast (by linarith : (q : ℚ) < 2 * ((n % q : ℤ) : ℚ))
    · have : (q : ℚ) < 2 * ((n % q : ℤ) : ℚ) := by exact_mod_cast hh
      linarith
  unfold zround roundHalfEven
  rw [hfl]
  simp only [c1, c2]
  split_ifs with h1 h2 h3 <;> try rfl
  · rw [Int.even_iff] at h3
    omega
  · rw [Int.even_iff] at h3
    omega

theorem pyRound_intCast_div (d : ℕ) (N D : ℤ) (hD : 0 < D) :
    pyRound d ((N : ℚ) / D) = (zround (N * 10 ^ d) D : ℚ) / 10 ^ d := by
  unfold pyRound
  have h : ((N : ℚ) / D) * 10 ^ d = ((N * 10 ^ d : ℤ) : ℚ) / D := by
    push_cast
    ring
  rw [h, ← zround_eq _ _ hD]

end RoundLemmas

section ScaledCorrespondence

theorem pyRound_div_pow (d : ℕ) (y : ℚ) :
    pyRound d (y / 10 ^ d) = (roundHalfEven y : ℚ) / 10 ^ d := by
  unfold pyRound
  rw [div_mul_cancel₀ _ (by positivity : ((10 : ℚ) ^ d) ≠ 0)]


theorem div_pow_nonpos_iff (d : ℕ) (B : ℤ) :
    ((B : ℚ) / 10 ^ d ≤ 0) ↔ (B ≤ 0) := by
  have hS : (0 : ℚ) < 10 ^ d := by positivity
  rw [div_le_iff₀ hS, zero_mul]
  exact_mod_cast Iff.rfl

theorem amortStep_eq_scaled (d : ℕ) (rn rd : ℤ) (hrd : 0 < rd)
    (B Pm A : ℤ) (per dt : ℕ) :
    amortStep d ((rn : ℚ) / rd)
        ⟨(B : ℚ) / 10 ^ d, (Pm : ℚ) / 10 ^ d, (A : ℚ) / 10 ^ d⟩ per dt
      = (unscaleRec d (amortStepZ rn rd B Pm A per dt).1,
         ⟨((amortStepZ rn rd B Pm A per dt).2.1 : ℚ) / 10 ^ d,
          ((amortStepZ rn rd B Pm A per dt).2.2.1 : ℚ) / 10 ^ d,
          ((amortStepZ rn rd B Pm A per dt).2.2.2 : ℚ) / 10 ^ d⟩) := by
  have hS : (0 : ℚ) < 10 ^ d := by positivity
  have hI : pyRound d (((rn : ℚ) / rd) * ((B : ℚ) / 10 ^ d))
      = ((zround (rn * B) rd : ℤ) : ℚ) / 10 ^ d := by
    have harg : ((rn : ℚ) / rd) * ((B : ℚ) / 10 ^ d)
        = (((rn * B : ℤ) : ℚ) / rd) / 10 ^ d := by push_cast; ring
    rw [harg, pyRound_div_pow, ← zround_eq _ _ hrd]
  have hadd : ∀ X Y : ℤ, (X : ℚ) / 10 ^ d + (Y : ℚ) / 10 ^ d
      = ((X + Y : ℤ) : ℚ) / 10 ^ d := by intro X Y; push_cast; ring
  have hsub : ∀ X Y : ℤ, (X : ℚ) / 10 ^ d - (Y : ℚ) / 10 ^ d
      = ((X - Y : ℤ) : ℚ) / 10 ^ d := by intro X Y; push_cast; ring
  have hmin : ∀ X Y : ℤ, min ((X : ℚ) / 10 ^ d) ((Y : ℚ) / 10 ^ d)
      = ((min X Y : ℤ) : ℚ) / 10 ^ d := by
    intro X Y
    rw [min_div_div_right hS.le]
    congr 1
    push_cast
    rfl
  unfold amortStep amortStepZ unscaleRec
  simp only [hI, hadd, hsub, hmin]

theorem amortRun_eq_scaled (d : ℕ) (rn rd : ℤ) (hrd : 0 < rd) :
    ∀ (fuel : ℕ) (B Pm A : ℤ) (per dt : ℕ),
    amortRun d ((rn : ℚ) / rd) fuel
        ⟨(B : ℚ) / 10 ^ d, (Pm : ℚ) / 10 ^ d, (A : ℚ) / 10 ^ d⟩ per dt
      = (amortRunZ rn rd fuel B Pm A per dt).map (List.map (unscaleRec d)) := by
  intro fuel
  induction fuel with
  | zero =>
    intro B Pm A per dt
    have hS : (0 : ℚ) < 10 ^ d := by positivity
    have hguard := div_pow_nonpos_iff d B
    simp only [amortRun, amortRunZ]
    by_cases hB : B ≤ 0
    · rw [if_pos (hguard.mpr hB), if_pos hB]; rfl
    · rw [if_neg (fun hh => hB (hguard.mp hh)), if_neg hB]; rfl
  | succ fuel ih =>
    intro B Pm A per dt
    have hS : (0 : ℚ) < 10 ^ d := by positivity
    have hguard := div_pow_nonpos_iff d B
    simp only [amortRun, amortRunZ]
    by_cases hB : B ≤ 0
    · rw [if_pos (hguard.mpr hB), if_pos hB]; rfl
    · rw [if_neg (fun hh => hB (hguard.mp hh)), if_neg hB,
        amortStep_eq_scaled d rn rd hrd B Pm A per dt, ih]
      cases amortRunZ rn rd fuel (amortStepZ rn rd B Pm A per dt).2.1
          (amortStepZ rn rd B Pm A per dt).2.2.1
          (amortStepZ rn rd B Pm A per dt).2.2.2 (per + 1) (dt + 1) with
      | none => rfl
      | some l => rfl

theorem amortTrace_eq_scaled (d : ℕ) (rn rd : ℤ) (hrd : 0 < rd) :
    ∀ (fuel : ℕ) (B Pm A : ℤ) (per dt : ℕ),
    amortTrace d ((rn : ℚ) / rd) fuel
        ⟨(B : ℚ) / 10 ^ d, (Pm : ℚ) / 10 ^ d, (A : ℚ) / 10 ^ d⟩ per dt
      = (amortTraceZ rn rd fuel B Pm A per dt).map (unscaleRec d) := by
  intro fuel
  induction fuel with
  | zero => intro B Pm A per dt; rfl
  | succ fuel ih =>
    intro B Pm A per dt
    have hS : (0 : ℚ) < 10 ^ d := by positivity
    have hguard := div_pow_nonpos_iff d B
    simp only [amortTrace, amortTraceZ]
    by_cases hB : B ≤ 0
    · rw [if_pos (hguard.mpr hB), if_pos hB]; rfl
    · rw [if_neg (fun hh => hB (hguard.mp hh)), if_neg hB,
        amortStep_eq_scaled d rn rd hrd B Pm A per dt, ih]
      rfl

end ScaledCorrespondence

section PaymentEval

theorem npf_pmt_zero (n : ℕ) (pv : ℚ) : npf_pmt 0 n pv = -(pv / n) := by
  unfold npf_pmt
  rw [if_pos rfl]

theorem npf_pmt_intCast (a b pv : ℤ) (n : ℕ) (hb : 0 < b) (ha : a ≠ 0)
    (hne : (a + b) ^ n ≠ b ^ n) :
    npf_pmt ((a : ℚ) / b) n (pv : ℚ)
      = ((-(pv * a * (a + b) ^ n) : ℤ) : ℚ)
        / ((b * ((a + b) ^ n - b ^ n) : ℤ) : ℚ) := by
  have hbq : ((b : ℚ)) ≠ 0 := by exact_mod_cast hb.ne'
  have hrne : ((a : ℚ)) / b ≠ 0 :=
    div_ne_zero (by exact_mod_cast ha) hbq
  have hbpow : ((b : ℚ)) ^ n ≠ 0 := pow_ne_zero n hbq
  have hdq : ((a + b : ℤ) : ℚ) ^ n ≠ ((b : ℤ) : ℚ) ^ n := by
    intro hh
    exact hne (by exact_mod_cast hh)
  have h1r : (1 : ℚ) + (a : ℚ) / b = ((a + b : ℤ) : ℚ) / b := by
    push_cast
    field_simp
    ring
  unfold npf_pmt
  rw [if_neg hrne, h1r, div_pow]
  have hsub : ((a + b : ℤ) : ℚ) ^ n / ((b : ℚ)) ^ n - 1 ≠ 0 := by
    rw [div_sub_one hbpow]
    exact div_ne_zero (sub_ne_zero.mpr hdq) hbpow
  push_cast
  push_cast at hsub hdq
  set T := ((a : ℚ) + b) ^ n with hT
  set BN := ((b : ℚ)) ^ n with hBN
  have h2 : T - BN ≠ 0 := sub_ne_zero.mpr hdq
  field_simp
  ring

theorem intCast_div_swap_neg (N D : ℤ) :
    ((N : ℤ) : ℚ) / ((D : ℤ) : ℚ) = ((-N : ℤ) : ℚ) / ((-D : ℤ) : ℚ) := by
  push_cast
  rw [neg_div_neg_eq]

theorem sumInterest_unscale (d : ℕ) (l : List (PeriodRec ℤ)) :
    sumInterest (l.map (unscaleRec d)) = ((sumInterestZ l : ℤ) : ℚ) / 10 ^ d := by
  induction l with
  | nil => simp [sumInterest, sumInterestZ]
  | cons x xs ih =>
    simp only [sumInterest, sumInterestZ, List.map_cons, List.map_map,
      List.sum_cons] at *
    rw [ih]
    unfold unscaleRec
    push_cast
    ring

theorem optionMap_length_unscale (d : ℕ) (X : Option (List (PeriodRec ℤ))) :
    (X.map (List.map (unscaleRec d))).map List.length = X.map List.length := by
  cases X <;> simp

theorem optionMap_sumInterest_unscale (d : ℕ) (X : Option (List (PeriodRec ℤ))) :
    (X.map (List.map (unscaleRec d))).map sumInterest
      = X.map (fun l => ((sumInterestZ l : ℤ) : ℚ) / 10 ^ d) := by
  cases X with
  | none => rfl
  | some l => simp [sumInterest_unscale]

theorem amortizeV2_eq_scaled (P addl rate : ℚ) (years today fuel : ℕ)
    (a b BP BA PM : ℤ) (hb : 0 < b) (hr : rate / 12 = (a : ℚ) / b)
    (hP : P = (BP : ℚ)) (haddl : addl = (BA : ℚ))
    (hpm : monthly_paymentV2 rate years P = (PM : ℚ)) :
    amortizeV2 P addl rate years today fuel
      = (amortRunZ a b fuel BP PM BA 1 (today + 1)).map
          (List.map (unscaleRec 0)) := by
  unfold amortizeV2
  rw [hpm, hr, hP, haddl]
  have e : (⟨(BP : ℚ), (PM : ℚ), (BA : ℚ)⟩ : MState ℚ)
      = ⟨(BP : ℚ) / 10 ^ 0, (PM : ℚ) / 10 ^ 0, (BA : ℚ) / 10 ^ 0⟩ := by
    norm_num
  rw [e, amortRun_eq_scaled 0 a b hb fuel BP PM BA 1 (today + 1)]

theorem amortizeV2T_eq_scaled (P addl rate : ℚ) (years today fuel : ℕ)
    (a b BP BA PM : ℤ) (hb : 0 < b) (hr : rate / 12 = (a : ℚ) / b)
    (hP : P = (BP : ℚ)) (haddl : addl = (BA : ℚ))
    (hpm : monthly_paymentV2 rate years P = (PM : ℚ)) :
    amortizeV2T P addl rate years today fuel
      = (amortTraceZ a b fuel BP PM BA 1 (today + 1)).map (unscaleRec 0) := by
  unfold amortizeV2T
  rw [hpm, hr, hP, haddl]
  have e : (⟨(BP : ℚ), (PM : ℚ), (BA : ℚ)⟩ : MState ℚ)
      = ⟨(BP : ℚ) / 10 ^ 0, (PM : ℚ) / 10 ^ 0, (BA : ℚ) / 10 ^ 0⟩ := by
    norm_num
  rw [e, amortTrace_eq_scaled 0 a b hb fuel BP PM BA 1 (today + 1)]

end PaymentEval

section ConcretePayments

theorem monthly_paymentV2_c8 : monthly_paymentV2 (1/25 : ℚ) 30 300000 = 1432 := by
  unfold monthly_paymentV2
  have hpv : (300000 : ℚ) = ((300000 : ℤ) : ℚ) := by norm_num
  have hr : (1/25 : ℚ)/12 = ((1 : ℤ) : ℚ)/((300 : ℤ) : ℚ) := by norm_num
  rw [hpv, hr, npf_pmt_intCast 1 300 300000 (30*12) (by norm_num) (by norm_num) (by decide),
    pyRound_intCast_div 0 _ _ (by decide)]
  have hz : zround (-(300000 * 1 * (1 + 300) ^ (30*12)) * 10 ^ 0)
      (300 * ((1 + 300) ^ (30*12) - 300 ^ (30*12))) = -1432 := by decide
  rw [hz]
  norm_num

theorem monthly_paymentV2_c1 : monthly_paymentV2 (12 : ℚ) 30 100 = 100 := by
  unfold monthly_paymentV2
  have hpv : (100 : ℚ) = ((100 : ℤ) : ℚ) := by norm_num
  have hr : (12 : ℚ)/12 = ((1 : ℤ) : ℚ)/((1 : ℤ) : ℚ) := by norm_num
  rw [hpv, hr, npf_pmt_intCast 1 1 100 (30*12) (by norm_num) (by norm_num) (by decide),
    pyRound_intCast_div 0 _ _ (by decide)]
  have hz : zround (-(100 * 1 * (1 + 1) ^ (30*12)) * 10 ^ 0)
      (1 * ((1 + 1) ^ (30*12) - 1 ^ (30*12))) = -100 := by decide
  rw [hz]
  norm_num

theorem monthly_paymentV2_c7 : monthly_paymentV2 (-3/5 : ℚ) 1 1000 = 59 := by
  unfold monthly_paymentV2
  have hpv : (1000 : ℚ) = ((1000 : ℤ) : ℚ) := by norm_num
  have hr : (-3/5 : ℚ)/12 = ((-1 : ℤ) : ℚ)/((20 : ℤ) : ℚ) := by norm_num
  rw [hpv, hr, npf_pmt_intCast (-1) 20 1000 (1*12) (by norm_num) (by norm_num) (by decide),
    intCast_div_swap_neg, pyRound_intCast_div 0 _ _ (by decide)]
  have hz : zround (- -(1000 * -1 * (-1 + 20) ^ (1*12)) * 10 ^ 0)
      (-(20 * ((-1 + 20) ^ (1*12) - 20 ^ (1*12)))) = -59 := by decide
  rw [hz]
  norm_num

theorem monthly_paymentV2_c10 : monthly_paymentV2 (0 : ℚ) 1 100 = 8 := by
  unfold monthly_paymentV2
  have hr : (0 : ℚ)/12 = 0 := by norm_num
  rw [hr, npf_pmt_zero]
  have harg : -((100 : ℚ) / ((1*12 : ℕ) : ℚ)) = ((-100 : ℤ) : ℚ)/((12 : ℤ) : ℚ) := by
    norm_num
  rw [harg, pyRound_intCast_div 0 _ _ (by norm_num)]
  have hz : zround (-100 * 10 ^ 0) 12 = -8 := by decide
  rw [hz]
  norm_num

theorem monthly_paymentV1_c5 : monthly_paymentV1 (0 : ℚ) 30 (-100) = -7/25 := by
  unfold monthly_paymentV1
  rw [npf_pmt_zero]
  have harg : -((-100 : ℚ) / ((30*12 : ℕ) : ℚ)) = ((100 : ℤ) : ℚ)/((360 : ℤ) : ℚ) := by
    norm_num
  rw [harg, pyRound_intCast_div 2 _ _ (by norm_num)]
  have hz : zround (100 * 10 ^ 2) 360 = 28 := by decide
  rw [hz]
  norm_num

end ConcretePayments

section StructuralLemmas

variable {α : Type} [LinearOrderedField α] [FloorRing α]
variable {d : ℕ} {r : α} {s : MState α} {per dt : ℕ}

theorem step_begBalance (d : ℕ) (r : α) (s : MState α) (per dt : ℕ) :
    (amortStep d r s per dt).1.begBalance = s.beg := rfl

theorem step_interest (d : ℕ) (r : α) (s : MState α) (per dt : ℕ) :
    (amortStep d r s per dt).1.interest = pyRound d (r * s.beg) := rfl

theorem step_payment (d : ℕ) (r : α) (s : MState α) (per dt : ℕ) :
    (amortStep d r s per dt).1.payment
      = min s.pmt (s.beg + pyRound d (r * s.beg)) := rfl

theorem step_principal (d : ℕ) (r : α) (s : MState α) (per dt : ℕ) :
    (amortStep d r s per dt).1.principal
      = (amortStep d r s per dt).1.payment - pyRound d (r * s.beg) := rfl

theorem step_additional (d : ℕ) (r : α) (s : MState α) (per dt : ℕ) :
    (amortStep d r s per dt).1.additionalPayment
      = min s.adp (s.beg - (amortStep d r s per dt).1.principal) := rfl

theorem step_endBalance (d : ℕ) (r : α) (s : MState α) (per dt : ℕ) :
    (amortStep d r s per dt).1.endBalance
      = s.beg - ((amortStep d r s per dt).1.principal
          + (amortStep d r s per dt).1.additionalPayment) := rfl

theorem step_state_beg (d : ℕ) (r : α) (s : MState α) (per dt : ℕ) :
    (amortStep d r s per dt).2.beg = (amortStep d r s per dt).1.endBalance := rfl

theorem step_state_pmt (d : ℕ) (r : α) (s : MState α) (per dt : ℕ) :
    (amortStep d r s per dt).2.pmt = (amortStep d r s per dt).1.payment := rfl

theorem step_state_adp (d : ℕ) (r : α) (s : MState α) (per dt : ℕ) :
    (amortStep d r s per dt).2.adp
      = (amortStep d r s per dt).1.additionalPayment := rfl

theorem step_principal_le_beg (d : ℕ) (r : α) (s : MState α) (per dt : ℕ) :
    (amortStep d r s per dt).1.principal ≤ s.beg := by
  rw [step_principal, step_payment]
  have h := min_le_right s.pmt (s.beg + pyRound d (r * s.beg))
  linarith

theorem step_endBalance_nonneg (d : ℕ) (r : α) (s : MState α) (per dt : ℕ) :
    0 ≤ (amortStep d r s per dt).1.endBalance := by
  rw [step_endBalance, step_additional]
  have h := min_le_right s.adp (s.beg - (amortStep d r s per dt).1.principal)
  linarith

theorem step_adp_frozen (d : ℕ) (r : α) (s : MState α) (per dt : ℕ)
    (h : 0 < (amortStep d r s per dt).1.endBalance) :
    (amortStep d r s per dt).2.adp = s.adp := by
  rw [step_state_adp, step_additional]
  rcases min_cases s.adp (s.beg - (amortStep d r s per dt).1.principal) with
    ⟨h1, _⟩ | ⟨h1, _⟩
  · exact h1
  · exfalso
    rw [step_endBalance, step_additional, h1] at h
    linarith

theorem step_pmt_frozen (d : ℕ) (r : α) (s : MState α) (per dt : ℕ)
    (ha : 0 ≤ s.adp) (h : 0 < (amortStep d r s per dt).1.endBalance) :
    (amortStep d r s per dt).2.pmt = s.pmt := by
  rw [step_state_pmt, step_payment]
  rcases min_cases s.pmt (s.beg + pyRound d (r * s.beg)) with ⟨h1, _⟩ | ⟨h1, _⟩
  · exact h1
  · exfalso
    have hpay : (amortStep d r s per dt).1.payment
        = s.beg + pyRound d (r * s.beg) := by rw [step_payment]; exact h1
    have hpr : (amortStep d r s per dt).1.principal = s.beg := by
      rw [step_principal, hpay]; ring
    have hadd : (amortStep d r s per dt).1.additionalPayment = 0 := by
      rw [step_additional, hpr, sub_self]
      exact min_eq_right ha
    rw [step_endBalance, hpr, hadd] at h
    linarith

theorem amortRun_of_nonpos (d : ℕ) (r : α) (fuel : ℕ) (s : MState α)
    (per dt : ℕ) (h : s.beg ≤ 0) : amortRun d r fuel s per dt = some [] := by
  cases fuel <;> simp [amortRun, h]

theorem amortTrace_of_nonpos (d : ℕ) (r : α) (fuel : ℕ) (s : MState α)
    (per dt : ℕ) (h : s.beg ≤ 0) : amortTrace d r fuel s per dt = [] := by
  cases fuel <;> simp [amortTrace, h]

theorem amortRun_some_nil (d : ℕ) (r : α) (fuel : ℕ) (s : MState α)
    (per dt : ℕ) (h : amortRun d r fuel s per dt = some []) : s.beg ≤ 0 := by
  by_contra hb
  push_neg at hb
  cases fuel with
  | zero =>
    unfold amortRun at h
    rw [if_neg (not_le.mpr hb)] at h
    cases h
  | succ fuel =>
    unfold amortRun at h
    rw [if_neg (not_le.mpr hb)] at h
    rcases Option.map_eq_some'.mp h with ⟨l, _, hl⟩
    cases hl

theorem amortRun_eq_trace (d : ℕ) (r : α) :
    ∀ (fuel : ℕ) (s : MState α) (per dt : ℕ) (recs : List (PeriodRec α)),
    amortRun d r fuel s per dt = some recs →
    amortTrace d r fuel s per dt = recs := by
  intro fuel
  induction fuel with
  | zero =>
    intro s per dt recs h
    unfold amortRun at h
    unfold amortTrace
    by_cases hb : s.beg ≤ 0
    · rw [if_pos hb] at h
      cases h
      rfl
    · rw [if_neg hb] at h
      cases h
  | succ fuel ih =>
    intro s per dt recs h
    unfold amortRun at h
    unfold amortTrace
    by_cases hb : s.beg ≤ 0
    · rw [if_pos hb] at h
      cases h
      rw [if_pos hb]
    · rw [if_neg hb] at h
      rw [if_neg hb]
      rcases Option.map_eq_some'.mp h with ⟨l, hl, hcons⟩
      show (amortStep d r s per dt).1
          :: amortTrace d r fuel (amortStep d r s per dt).2 (per + 1) (dt + 1)
          = recs
      rw [ih _ _ _ _ hl, hcons]

theorem amortTrace_endBalance_nonneg (d : ℕ) (r : α) :
    ∀ (fuel : ℕ) (s : MState α) (per dt : ℕ),
    ∀ rcd ∈ amortTrace d r fuel s per dt, 0 ≤ rcd.endBalance := by
  intro fuel
  induction fuel with
  | zero => intro s per dt rcd h; cases h
  | succ fuel ih =>
    intro s per dt rcd h
    unfold amortTrace at h
    by_cases hb : s.beg ≤ 0
    · rw [if_pos hb] at h; cases h
    · rw [if_neg hb] at h
      rcases List.mem_cons.mp h with hh | hh
      · rw [hh]
        exact step_endBalance_nonneg d r s per dt
      · exact ih _ _ _ rcd hh

theorem amortRun_getLast_endBalance (d : ℕ) (r : α) :
    ∀ (fuel : ℕ) (s : MState α) (per dt : ℕ) (recs : List (PeriodRec α)),
    amortRun d r fuel s per dt = some recs →
    ∀ h : recs ≠ [], (recs.getLast h).endBalance = 0 := by
  intro fuel
  induction fuel with
  | zero =>
    intro s per dt recs h hne
    unfold amortRun at h
    by_cases hb : s.beg ≤ 0
    · rw [if_pos hb] at h; cases h; exact absurd rfl hne
    · rw [if_neg hb] at h; cases h
  | succ fuel ih =>
    intro s per dt recs h hne
    unfold amortRun at h
    by_cases hb : s.beg ≤ 0
    · rw [if_pos hb] at h; cases h; exact absurd rfl hne
    · rw [if_neg hb] at h
      rcases Option.map_eq_some'.mp h with ⟨l, hl, hcons⟩
      subst hcons
      cases l with
      | nil =>
        have hz : (amortStep d r s per dt).2.beg ≤ 0 :=
          amortRun_some_nil d r fuel _ _ _ hl
        rw [step_state_beg] at hz
        have hnn := step_endBalance_nonneg d r s per dt
        simp only [List.getLast_singleton]
        linarith
      | cons x xs =>
        rw [List.getLast_cons (by simp : (x :: xs) ≠ [])]
        exact ih _ _ _ (x :: xs) hl (by simp)

theorem amortTrace_additional_eq (d : ℕ) (r : α) :
    ∀ (fuel : ℕ) (s : MState α) (per dt : ℕ),
    ∀ rcd ∈ amortTrace d r fuel s per dt,
    rcd.additionalPayment = min s.adp (rcd.begBalance - rcd.principal) := by
  intro fuel
  induction fuel with
  | zero => intro s per dt rcd h; cases h
  | succ fuel ih =>
    intro s per dt rcd h
    unfold amortTrace at h
    by_cases hb : s.beg ≤ 0
    · rw [if_pos hb] at h; cases h
    · rw [if_neg hb] at h
      rcases List.mem_cons.mp h with hh | hh
      · rw [hh, step_additional, step_begBalance]
      · by_cases hpos : 0 < (amortStep d r s per dt).1.endBalance
        · have hfroz := step_adp_frozen d r s per dt hpos
          have := ih _ (per + 1) (dt + 1) rcd hh
          rw [hfroz] at this
          exact this
        · have hz : (amortStep d r s per dt).2.beg ≤ 0 := by
            rw [step_state_beg]; linarith [not_lt.mp hpos]
          rw [amortTrace_of_nonpos d r fuel _ (per + 1) (dt + 1) hz] at hh
          cases hh

end StructuralLemmas

section CouplingLemmas

variable {α : Type} [LinearOrderedField α] [FloorRing α]

theorem sub_min_eq_max (a x : α) : x - min a x = max (x - a) 0 := by
  rcases le_total a x with h | h
  · rw [min_eq_left h, max_eq_left (by linarith)]
  · rw [min_eq_right h, max_eq_right (by linarith), sub_self]

theorem step_endBalance_eq_max (d : ℕ) (r : α) (s : MState α) (per dt : ℕ) :
    (amortStep d r s per dt).1.endBalance
      = max (max (s.beg + pyRound d (r * s.beg) - s.pmt) 0 - s.adp) 0 := by
  have hbp : s.beg - (amortStep d r s per dt).1.principal
      = max (s.beg + pyRound d (r * s.beg) - s.pmt) 0 := by
    rw [step_principal, step_payment]
    have h := sub_min_eq_max s.pmt (s.beg + pyRound d (r * s.beg))
    linarith
  have h2 := sub_min_eq_max s.adp (s.beg - (amortStep d r s per dt).1.principal)
  rw [hbp] at h2
  rw [step_endBalance, step_additional, hbp]
  linarith [hbp, h2]

theorem step_endBalance_mono (d : ℕ) (r : α) (hr : 0 ≤ r)
    {b1 b2 pmt a1 a2 : α} (hb : b2 ≤ b1) (ha : a1 ≤ a2)
    (per1 per2 dt1 dt2 : ℕ) :
    (amortStep d r ⟨b2, pmt, a2⟩ per2 dt2).1.endBalance
      ≤ (amortStep d r ⟨b1, pmt, a1⟩ per1 dt1).1.endBalance := by
  rw [step_endBalance_eq_max, step_endBalance_eq_max]
  dsimp only
  have hi : pyRound d (r * b2) ≤ pyRound d (r * b1) :=
    pyRound_mono d (mul_le_mul_of_nonneg_left hb hr)
  have h1 : max (b2 + pyRound d (r * b2) - pmt) 0
      ≤ max (b1 + pyRound d (r * b1) - pmt) 0 :=
    max_le_max (by linarith) le_rfl
  exact max_le_max (by linarith) le_rfl

theorem sumInterest_cons (x : PeriodRec α) (l : List (PeriodRec α)) :
    sumInterest (x :: l) = x.interest + sumInterest l := by
  simp [sumInterest]

theorem sumInterest_trace_nonneg (d : ℕ) (r : α) (hr : 0 ≤ r) :
    ∀ (fuel : ℕ) (s : MState α) (per dt : ℕ),
    0 ≤ sumInterest (amortTrace d r fuel s per dt) := by
  intro fuel
  induction fuel with
  | zero => intro s per dt; simp [amortTrace, sumInterest]
  | succ fuel ih =>
    intro s per dt
    unfold amortTrace
    by_cases hb : s.beg ≤ 0
    · rw [if_pos hb]; simp [sumInterest]
    · rw [if_neg hb]
      push_neg at hb
      show 0 ≤ sumInterest ((amortStep d r s per dt).1
        :: amortTrace d r fuel (amortStep d r s per dt).2 (per + 1) (dt + 1))
      rw [sumInterest_cons]
      have hint : 0 ≤ (amortStep d r s per dt).1.interest := by
        rw [step_interest]
        exact pyRound_nonneg d (mul_nonneg hr hb.le)
      have := ih (amortStep d r s per dt).2 (per + 1) (dt + 1)
      linarith

theorem amortTrace_coupling (d : ℕ) (r : α) (hr : 0 ≤ r) (pmt : α) :
    ∀ (fuel : ℕ) (b1 b2 a1 a2 : α) (per dt : ℕ),
    0 ≤ a1 → a1 ≤ a2 → b2 ≤ b1 →
    (amortTrace d r fuel ⟨b2, pmt, a2⟩ per dt).length
        ≤ (amortTrace d r fuel ⟨b1, pmt, a1⟩ per dt).length
      ∧ sumInterest (amortTrace d r fuel ⟨b2, pmt, a2⟩ per dt)
        ≤ sumInterest (amortTrace d r fuel ⟨b1, pmt, a1⟩ per dt) := by
  intro fuel
  induction fuel with
  | zero =>
    intro b1 b2 a1 a2 per dt ha1 ha12 hb
    exact ⟨le_rfl, le_rfl⟩
  | succ fuel ih =>
    intro b1 b2 a1 a2 per dt ha1 ha12 hb
    by_cases hb2 : b2 ≤ 0
    · rw [amortTrace_of_nonpos d r (fuel + 1) ⟨b2, pmt, a2⟩ per dt hb2]
      refine ⟨Nat.zero_le _, ?_⟩
      have h0 : sumInterest ([] : List (PeriodRec α)) = 0 := by
        simp [sumInterest]
      rw [h0]
      exact sumInterest_trace_nonneg d r hr (fuel + 1) ⟨b1, pmt, a1⟩ per dt
    · have hb1 : ¬ (b1 ≤ 0) := fun h => hb2 (le_trans hb h)
      unfold amortTrace
      rw [if_neg hb2, if_neg hb1]
      have hi : (amortStep d r ⟨b2, pmt, a2⟩ per dt).1.interest
          ≤ (amortStep d r ⟨b1, pmt, a1⟩ per dt).1.interest := by
        rw [step_interest, step_interest]
        exact pyRound_mono d (mul_le_mul_of_nonneg_left hb hr)
      have hee : (amortStep d r ⟨b2, pmt, a2⟩ per dt).1.endBalance
          ≤ (amortStep d r ⟨b1, pmt, a1⟩ per dt).1.endBalance :=
        step_endBalance_mono d r hr hb ha12 per per dt dt
      show ((amortStep d r ⟨b2, pmt, a2⟩ per dt).1
          :: amortTrace d r fuel (amortStep d r ⟨b2, pmt, a2⟩ per dt).2
              (per + 1) (dt + 1)).length
        ≤ ((amortStep d r ⟨b1, pmt, a1⟩ per dt).1
          :: amortTrace d r fuel (amortStep d r ⟨b1, pmt, a1⟩ per dt).2
              (per + 1) (dt + 1)).length
        ∧ sumInterest ((amortStep d r ⟨b2, pmt, a2⟩ per dt).1
          :: amortTrace d r fuel (amortStep d r ⟨b2, pmt, a2⟩ per dt).2
              (per + 1) (dt + 1))
        ≤ sumInterest ((amortStep d r ⟨b1, pmt, a1⟩ per dt).1
          :: amortTrace d r fuel (amortStep d r ⟨b1, pmt, a1⟩ per dt).2
              (per + 1) (dt + 1))
      by_cases hpos : 0 < (amortStep d r ⟨b2, pmt, a2⟩ per dt).1.endBalance
      · have h1pos : 0 < (amortStep d r ⟨b1, pmt, a1⟩ per dt).1.endBalance :=
          lt_of_lt_of_le hpos hee
        have ha2 : (0 : α) ≤ a2 := le_trans ha1 ha12
        have hst2 : (amortStep d r ⟨b2, pmt, a2⟩ per dt).2
            = ⟨(amortStep d r ⟨b2, pmt, a2⟩ per dt).1.endBalance, pmt, a2⟩ := by
          have heta : (amortStep d r ⟨b2, pmt, a2⟩ per dt).2
              = ⟨(amortStep d r ⟨b2, pmt, a2⟩ per dt).2.beg,
                 (amortStep d r ⟨b2, pmt, a2⟩ per dt).2.pmt,
                 (amortStep d r ⟨b2, pmt, a2⟩ per dt).2.adp⟩ := rfl
          rw [heta, step_state_beg, step_pmt_frozen d r ⟨b2, pmt, a2⟩ per dt ha2 hpos,
            step_adp_frozen d r ⟨b2, pmt, a2⟩ per dt hpos]
        have hst1 : (amortStep d r ⟨b1, pmt, a1⟩ per dt).2
            = ⟨(amortStep d r ⟨b1, pmt, a1⟩ per dt).1.endBalance, pmt, a1⟩ := by
          have heta : (amortStep d r ⟨b1, pmt, a1⟩ per dt).2
              = ⟨(amortStep d r ⟨b1, pmt, a1⟩ per dt).2.beg,
                 (amortStep d r ⟨b1, pmt, a1⟩ per dt).2.pmt,
                 (amortStep d r ⟨b1, pmt, a1⟩ per dt).2.adp⟩ := rfl
          rw [heta, step_state_beg, step_pmt_frozen d r ⟨b1, pmt, a1⟩ per dt ha1 h1pos,
            step_adp_frozen d r ⟨b1, pmt, a1⟩ per dt h1pos]
        rw [hst1, hst2]
        have hIH := ih (amortStep d r ⟨b1, pmt, a1⟩ per dt).1.endBalance
          (amortStep d r ⟨b2, pmt, a2⟩ per dt).1.endBalance a1 a2
          (per + 1) (dt + 1) ha1 ha12 hee
        constructor
        · simp only [List.length_cons]
          exact Nat.succ_le_succ hIH.1
        · rw [sumInterest_cons, sumInterest_cons]
          exact add_le_add hi hIH.2
      · have hz : (amortStep d r ⟨b2, pmt, a2⟩ per dt).2.beg ≤ 0 := by
          rw [step_state_beg]
          exact not_lt.mp hpos
        rw [amortTrace_of_nonpos d r fuel _ (per + 1) (dt + 1) hz]
        constructor
        · simp only [List.length_cons, List.length_nil]
          omega
        · rw [sumInterest_cons, sumInterest_cons]
          have h0 : sumInterest ([] : List (PeriodRec α)) = 0 := by
            simp [sumInterest]
          rw [h0]
          have hnn := sumInterest_trace_nonneg d r hr fuel
            (amortStep d r ⟨b1, pmt, a1⟩ per dt).2 (per + 1) (dt + 1)
          linarith

end CouplingLemmas

section TerminationLemmas

variable {α : Type} [LinearOrderedField α] [FloorRing α]

theorem amortRun_terminates (d : ℕ) (r pmt a δ P : α) (hr : 0 ≤ r)
    (ha : 0 ≤ a) (hδ : 0 < δ) (hpmt : r * P + 1 / 2 + δ ≤ pmt) :
    ∀ (fuel : ℕ) (b : α) (per dt : ℕ), b ≤ P → b ≤ δ * fuel →
    (amortRun d r fuel ⟨b, pmt, a⟩ per dt).isSome = true := by
  intro fuel
  induction fuel with
  | zero =>
    intro b per dt hbP hbf
    have hb0 : b ≤ 0 := by
      have : δ * (0 : ℕ) = 0 := by norm_num
      rw [this] at hbf
      exact hbf
    rw [amortRun_of_nonpos d r 0 ⟨b, pmt, a⟩ per dt hb0]
    rfl
  | succ fuel ih =>
    intro b per dt hbP hbf
    by_cases hb0 : b ≤ 0
    · rw [amortRun_of_nonpos d r (fuel + 1) ⟨b, pmt, a⟩ per dt hb0]
      rfl
    · push_neg at hb0
      have hile : pyRound d (r * b) ≤ pmt - δ := by
        have h1 := pyRound_le_add_half d (r * b)
        have h2 : r * b ≤ r * P := mul_le_mul_of_nonneg_left hbP hr
        linarith
      have hinner : (amortRun d r fuel (amortStep d r ⟨b, pmt, a⟩ per dt).2
          (per + 1) (dt + 1)).isSome = true := by
        by_cases hclip : pmt ≤ b + pyRound d (r * b)
        · have hpay : (amortStep d r ⟨b, pmt, a⟩ per dt).1.payment
              = pmt := by
            rw [step_payment]
            exact min_eq_left hclip
          have hpr : (amortStep d r ⟨b, pmt, a⟩ per dt).1.principal
              = pmt - pyRound d (r * b) := by
            rw [step_principal, hpay]
          rcases min_cases a (b - (pmt - pyRound d (r * b))) with
            ⟨hmin, hle⟩ | ⟨hmin, hlt⟩
          · have hadd : (amortStep d r ⟨b, pmt, a⟩ per dt).1.additionalPayment
                = a := by
              rw [step_additional, hpr]
              exact hmin
            have hend : (amortStep d r ⟨b, pmt, a⟩ per dt).1.endBalance
                = b - (pmt - pyRound d (r * b)) - a := by
              rw [step_endBalance, hpr, hadd]
              ring
            have hst : (amortStep d r ⟨b, pmt, a⟩ per dt).2
                = ⟨b - (pmt - pyRound d (r * b)) - a, pmt, a⟩ := by
              have heta : (amortStep d r ⟨b, pmt, a⟩ per dt).2
                  = ⟨(amortStep d r ⟨b, pmt, a⟩ per dt).2.beg,
                     (amortStep d r ⟨b, pmt, a⟩ per dt).2.pmt,
                     (amortStep d r ⟨b, pmt, a⟩ per dt).2.adp⟩ := rfl
              rw [heta, step_state_beg, step_state_pmt, step_state_adp, hend,
                hpay, hadd]
            rw [hst]
            apply ih
            · linarith
            · have : (δ : α) * (fuel + 1 : ℕ) = δ * fuel + δ := by
                push_cast
                ring
              rw [this] at hbf
              linarith
          · have hadd : (amortStep d r ⟨b, pmt, a⟩ per dt).1.additionalPayment
                = b - (pmt - pyRound d (r * b)) := by
              rw [step_additional, hpr]
              exact hmin
            have hend : (amortStep d r ⟨b, pmt, a⟩ per dt).2.beg ≤ 0 := by
              rw [step_state_beg, step_endBalance, hpr, hadd]
              linarith
            rw [amortRun_of_nonpos d r fuel _ (per + 1) (dt + 1) hend]
            rfl
        · push_neg at hclip
          have hpay : (amortStep d r ⟨b, pmt, a⟩ per dt).1.payment
              = b + pyRound d (r * b) := by
            rw [step_payment]
            exact min_eq_right hclip.le
          have hpr : (amortStep d r ⟨b, pmt, a⟩ per dt).1.principal = b := by
            rw [step_principal, hpay]
            ring
          have hadd : (amortStep d r ⟨b, pmt, a⟩ per dt).1.additionalPayment
              = 0 := by
            rw [step_additional, hpr, sub_self]
            exact min_eq_right ha
          have hend : (amortStep d r ⟨b, pmt, a⟩ per dt).2.beg ≤ 0 := by
            rw [step_state_beg, step_endBalance, hpr, hadd]
            linarith
          rw [amortRun_of_nonpos d r fuel _ (per + 1) (dt + 1) hend]
          rfl
      unfold amortRun
      rw [if_neg (not_le.mpr hb0)]
      rcases Option.isSome_iff_exists.mp hinner with ⟨l, hl⟩
      show ((amortRun d r fuel (amortStep d r ⟨b, pmt, a⟩ per dt).2
          (per + 1) (dt + 1)).map
            (fun l => (amortStep d r ⟨b, pmt, a⟩ per dt).1 :: l)).isSome = true
      rw [hl]
      rfl

end TerminationLemmas

section DateIrrelevance

variable {α : Type} [LinearOrderedField α] [FloorRing α]

theorem amortRun_stripDate_irrel (d : ℕ) (r : α) :
    ∀ (fuel : ℕ) (s : MState α) (per dt1 dt2 : ℕ),
    (amortRun d r fuel s per dt1).map (List.map stripDate)
      = (amortRun d r fuel s per dt2).map (List.map stripDate) := by
  intro fuel
  induction fuel with
  | zero =>
    intro s per dt1 dt2
    unfold amortRun
    split_ifs <;> rfl
  | succ fuel ih =>
    intro s per dt1 dt2
    unfold amortRun
    split_ifs with hb
    · rfl
    · have hstate : (amortStep d r s per dt2).2 = (amortStep d r s per dt1).2 :=
        rfl
      have hstrip : stripDate (amortStep d r s per dt2).1
          = stripDate (amortStep d r s per dt1).1 := rfl
      show ((amortRun d r fuel (amortStep d r s per dt1).2 (per + 1)
            (dt1 + 1)).map (fun l => (amortStep d r s per dt1).1 :: l)).map
            (List.map stripDate)
        = ((amortRun d r fuel (amortStep d r s per dt2).2 (per + 1)
            (dt2 + 1)).map (fun l => (amortStep d r s per dt2).1 :: l)).map
            (List.map stripDate)
      rw [hstate]
      have ihh := ih (amortStep d r s per dt1).2 (per + 1) (dt1 + 1) (dt2 + 1)
      cases h1 : amortRun d r fuel (amortStep d r s per dt1).2 (per + 1)
          (dt1 + 1) with
      | none =>
        rw [h1] at ihh
        cases h2 : amortRun d r fuel (amortStep d r s per dt1).2 (per + 1)
            (dt2 + 1) with
        | none => rfl
        | some l2 => rw [h2] at ihh; cases ihh
      | some l1 =>
        rw [h1] at ihh
        cases h2 : amortRun d r fuel (amortStep d r s per dt1).2 (per + 1)
            (dt2 + 1) with
        | none => rw [h2] at ihh; cases ihh
        | some l2 =>
          rw [h2] at ihh
          simp only [Option.map_some'] at ihh
          simp only [Option.map_some', List.map_cons]
          rw [hstrip, Option.some.injEq] at *
          rw [ihh]

end DateIrrelevance


section IntervalTransfer

/-- Transport an exactly evaluated rational run to the real-rate run of
src/house.py: when the runs at two rational rate bounds `l ≤ r ≤ u` agree
on every record, the real run at `r` produces the cast of that same
schedule. -/
theorem amortRun_interval (d : ℕ) (l u : ℚ) (r : ℝ)
    (hl : (l : ℝ) ≤ r) (hu : r ≤ (u : ℝ)) :
    ∀ (fuel : ℕ) (b p a : ℚ) (per dt : ℕ) (recs : List (PeriodRec ℚ)),
    amortRun d l fuel ⟨b, p, a⟩ per dt = some recs →
    amortRun d u fuel ⟨b, p, a⟩ per dt = some recs →
    amortRun d r fuel ⟨(b : ℝ), (p : ℝ), (a : ℝ)⟩ per dt
      = some (recs.map castRec) := by
  intro fuel
  induction fuel with
  | zero =>
    intro b p a per dt recs Hl Hu
    unfold amortRun at Hl ⊢
    by_cases hb : b ≤ 0
    · rw [if_pos hb] at Hl
      cases Hl
      rw [if_pos (by exact_mod_cast hb : (b : ℝ) ≤ 0)]
      rfl
    · rw [if_neg hb] at Hl
      cases Hl
  | succ fuel ih =>
    intro b p a per dt recs Hl Hu
    by_cases hb : b ≤ 0
    · rw [amortRun_of_nonpos d l (fuel + 1) ⟨b, p, a⟩ per dt hb] at Hl
      cases Hl
      rw [amortRun_of_nonpos d r (fuel + 1) _ per dt
        (by exact_mod_cast hb : ((b : ℝ)) ≤ 0)]
      rfl
    · have hbpos : (0 : ℚ) < b := not_le.mp hb
      unfold amortRun at Hl Hu
      rw [if_neg hb] at Hl Hu
      rcases Option.map_eq_some'.mp Hl with ⟨tlL, hinL, hconsL⟩
      rcases Option.map_eq_some'.mp Hu with ⟨tlU, hinU, hconsU⟩
      have hrec : (amortStep d l ⟨b, p, a⟩ per dt).1
          = (amortStep d u ⟨b, p, a⟩ per dt).1 := by
        have := hconsL.trans hconsU.symm
        exact (List.cons.injEq _ _ _ _ ▸ this).1
      have htl : tlL = tlU := by
        have := hconsL.trans hconsU.symm
        exact (List.cons.injEq _ _ _ _ ▸ this).2
      have hieq : pyRound d (l * b) = pyRound d (u * b) := by
        have h1 := congrArg PeriodRec.interest hrec
        rw [step_interest, step_interest] at h1
        exact h1
      have hiR : pyRound d (r * ((b : ℚ) : ℝ)) = ((pyRound d (l * b) : ℚ) : ℝ) := by
        have hble : ((l * b : ℚ) : ℝ) ≤ r * (b : ℝ) := by
          push_cast
          exact mul_le_mul_of_nonneg_right hl (by exact_mod_cast hbpos.le)
        have hbge : r * (b : ℝ) ≤ ((u * b : ℚ) : ℝ) := by
          push_cast
          exact mul_le_mul_of_nonneg_right hu (by exact_mod_cast hbpos.le)
        have m1 : ((pyRound d (l * b) : ℚ) : ℝ) ≤ pyRound d (r * (b : ℝ)) := by
          rw [← pyRound_ratCast]
          exact pyRound_mono d hble
        have m2 : pyRound d (r * (b : ℝ)) ≤ ((pyRound d (u * b) : ℚ) : ℝ) := by
          rw [← pyRound_ratCast]
          exact pyRound_mono d hbge
        rw [← hieq] at m2
        exact le_antisymm m2 m1
      have hstep1 : (amortStep d r ⟨(b : ℝ), (p : ℝ), (a : ℝ)⟩ per dt).1
          = castRec (amortStep d l ⟨b, p, a⟩ per dt).1 := by
        unfold amortStep castRec
        dsimp only
        rw [hiR]
        push_cast
        rfl
      have hstep2 : (amortStep d r ⟨(b : ℝ), (p : ℝ), (a : ℝ)⟩ per dt).2
          = ⟨(((amortStep d l ⟨b, p, a⟩ per dt).2.beg : ℚ) : ℝ),
             (((amortStep d l ⟨b, p, a⟩ per dt).2.pmt : ℚ) : ℝ),
             (((amortStep d l ⟨b, p, a⟩ per dt).2.adp : ℚ) : ℝ)⟩ := by
        unfold amortStep
        dsimp only
        rw [hiR]
        push_cast
        rfl
      have hstateU : (amortStep d u ⟨b, p, a⟩ per dt).2
          = (amortStep d l ⟨b, p, a⟩ per dt).2 := by
        have e1 : (amortStep d u ⟨b, p, a⟩ per dt).2
            = ⟨(amortStep d u ⟨b, p, a⟩ per dt).1.endBalance,
               (amortStep d u ⟨b, p, a⟩ per dt).1.payment,
               (amortStep d u ⟨b, p, a⟩ per dt).1.additionalPayment⟩ := rfl
        have e2 : (amortStep d l ⟨b, p, a⟩ per dt).2
            = ⟨(amortStep d l ⟨b, p, a⟩ per dt).1.endBalance,
               (amortStep d l ⟨b, p, a⟩ per dt).1.payment,
               (amortStep d l ⟨b, p, a⟩ per dt).1.additionalPayment⟩ := rfl
        rw [e1, e2, hrec]
      subst htl
      rw [hstateU] at hinU
      have hihsL : amortRun d l fuel
          ⟨(amortStep d l ⟨b, p, a⟩ per dt).2.beg,
           (amortStep d l ⟨b, p, a⟩ per dt).2.pmt,
           (amortStep d l ⟨b, p, a⟩ per dt).2.adp⟩ (per + 1) (dt + 1)
          = some tlL := hinL
      have hihsU : amortRun d u fuel
          ⟨(amortStep d l ⟨b, p, a⟩ per dt).2.beg,
           (amortStep d l ⟨b, p, a⟩ per dt).2.pmt,
           (amortStep d l ⟨b, p, a⟩ per dt).2.adp⟩ (per + 1) (dt + 1)
          = some tlL := hinU
      have hreal := ih (amortStep d l ⟨b, p, a⟩ per dt).2.beg
        (amortStep d l ⟨b, p, a⟩ per dt).2.pmt
        (amortStep d l ⟨b, p, a⟩ per dt).2.adp (per + 1) (dt + 1) tlL hihsL hihsU
      unfold amortRun
      rw [if_neg (by exact_mod_cast hb : ¬ ((b : ℝ) ≤ 0))]
      show ((amortRun d r fuel
          (amortStep d r ⟨(b : ℝ), (p : ℝ), (a : ℝ)⟩ per dt).2 (per + 1)
          (dt + 1)).map
          (fun xs => (amortStep d r ⟨(b : ℝ), (p : ℝ), (a : ℝ)⟩ per dt).1 :: xs))
        = some (recs.map castRec)
      rw [hstep2, hreal, hstep1, ← hconsL]
      rfl

end IntervalTransfer

section ClaimC5

/-- Claim C5 is false on the code: `Mortgage.__init__` (src/house.py lines
92-95) stores its arguments without any check and no `InvalidLoanSpec`
exists anywhere in the repository; `monthly_payment` on the invalid spec
`principal = -100, years = 30, rate = 0` (invalid since `principal ≤ 0`)
returns the ordinary numeric value `-0.28` instead of failing. -/
theorem c5_counterexample :
    ¬ ValidLoanSpec (-100) 0 30
      ∧ monthly_paymentV1 (0 : ℚ) 30 (-100) = -7/25 := by
  constructor
  · rintro ⟨h1, -, -⟩
    norm_num at h1
  · exact monthly_paymentV1_c5

/-- Claim C5 amended: no validation is performed anywhere — construction
stores the fields unchecked and `monthly_payment` total-computes a value on
invalid specs too; e.g. every non-positive principal (zero rate, 30-year
term) yields a non-positive "payment" value rather than an
`InvalidLoanSpec` failure. -/
theorem c5_amended (P : ℚ) (hP : P ≤ 0) : monthly_paymentV1 0 30 P ≤ 0 := by
  unfold monthly_paymentV1
  rw [npf_pmt_zero]
  have h1 : (0 : ℚ) ≤ -(P / ((30 * 12 : ℕ) : ℚ)) := by
    have hd : P / ((30 * 12 : ℕ) : ℚ) ≤ 0 :=
      div_nonpos_iff.mpr (Or.inr ⟨hP, by norm_num⟩)
    linarith
  have h2 := pyRound_nonneg 2 h1
  linarith

/-- Witness for `c5_amended` at `P = -100`. -/
theorem c5_amended_witness :
    (-100 : ℚ) ≤ 0 ∧ monthly_paymentV1 0 30 (-100 : ℚ) ≤ 0 :=
  ⟨by norm_num, c5_amended (-100) (by norm_num)⟩

end ClaimC5

section ClaimC9

/-- Claim C9 is right about the intent and the code is wrong: with
`monthly_fictitious_income` absent (its default `None`),
src/src/house.py line 226 evaluates `all(None)`, which raises `TypeError`
instead of returning the schedule without tax columns.  Evaluated here at
`principal = 1000, years = 1, rate = 0`. -/
theorem c9_failing_input :
    amortizeV2Full (1000 : ℚ) 0 0 1 0 20 none
      = Except.error PyErr.typeError := rfl

end ClaimC9

section ClaimC10

/-- Claim C10 is false on the code: `amortize` reads the ambient
`date.today()` (src/house.py line 157, src/src/house.py line 172), so two
calls with the same loan parameters made in different months produce
different `Date` columns.  Here the same spec (`principal = 100`,
`addl = 200`, `rate = 0`, one year) is run with `today = 5` and
`today = 6`. -/
theorem c10_counterexample :
    amortizeV2 (100 : ℚ) 200 0 1 5 2 ≠ amortizeV2 (100 : ℚ) 200 0 1 6 2 := by
  have h5 := amortizeV2_eq_scaled 100 200 0 1 5 2 0 1 100 200 8
    (by norm_num) (by norm_num) (by norm_num) (by norm_num) monthly_paymentV2_c10
  have h6 := amortizeV2_eq_scaled 100 200 0 1 6 2 0 1 100 200 8
    (by norm_num) (by norm_num) (by norm_num) (by norm_num) monthly_paymentV2_c10
  rw [h5, h6]
  have e5 : amortRunZ 0 1 2 100 8 200 1 (5 + 1)
      = some [⟨6, 1, 100, 8, 8, 0, 92, 0⟩] := by decide
  have e6 : amortRunZ 0 1 2 100 8 200 1 (6 + 1)
      = some [⟨7, 1, 100, 8, 8, 0, 92, 0⟩] := by decide
  rw [e5, e6]
  intro h
  simp only [Option.map_some', List.map_cons, List.map_nil,
    Option.some.injEq, List.cons.injEq] at h
  have hd := congrArg PeriodRec.date h.1
  simp [unscaleRec] at hd

/-- Claim C10 amended: `amortize` is deterministic given the loan spec and
the invocation date; every column except `Date` depends only on the
`LoanSpec` — runs of the src/src/house.py engine from two different
invocation months agree record-by-record once the date column is
removed. -/
theorem c10_amended (P addl rate : ℚ) (years t1 t2 fuel : ℕ) :
    (amortizeV2 P addl rate years t1 fuel).map (List.map stripDate)
      = (amortizeV2 P addl rate years t2 fuel).map (List.map stripDate) := by
  unfold amortizeV2
  exact amortRun_stripDate_irrel 0 (rate / 12) fuel _ 1 (t1 + 1) (t2 + 1)

end ClaimC10

section ClaimC4

/-- Claim C4 is false on the code: there is no `NonTerminatingSchedule`
guard anywhere — the loop `while end_balance > 0` yields records with no
iteration bound.  At `principal = 100, years = 30, rate = 12` (annual
variant) the loop produces 362 records, more than `term_years*12 + 1 =
361`, and no failure of any kind occurs (the generator simply keeps
yielding). -/
theorem c4_counterexample :
    (amortizeV2T (100 : ℚ) 0 12 30 0 362).length = 362 ∧ 30 * 12 + 1 < 362 := by
  constructor
  · rw [amortizeV2T_eq_scaled 100 0 12 30 0 362 1 1 100 0 100
      (by norm_num) (by norm_num) (by norm_num) (by norm_num)
      monthly_paymentV2_c1]
    rw [List.length_map]
    decide
  · norm_num

/-- Claim C4 amended: the engine has no defensive iteration bound; a
non-converging configuration is never surfaced as a failure — at the
non-converging spec `principal = 100, years = 30, rate = 12` the loop
yields `n` records for every `n`, i.e. it runs unboundedly instead of
raising `NonTerminatingSchedule`. -/
theorem c4_amended : ∀ n : ℕ, (amortizeV2T (100 : ℚ) 0 12 30 0 n).length = n := by
  intro n
  rw [amortizeV2T_eq_scaled 100 0 12 30 0 n 1 1 100 0 100
    (by norm_num) (by norm_num) (by norm_num) (by norm_num)
    monthly_paymentV2_c1]
  rw [List.length_map]
  have key : ∀ (m per dt : ℕ), (amortTraceZ 1 1 m 100 100 0 per dt).length = m := by
    intro m
    induction m with
    | zero => intro per dt; rfl
    | succ m ih =>
      intro per dt
      show (amortTraceZ 1 1 (m + 1) 100 100 0 per dt).length = m + 1
      unfold amortTraceZ
      rw [if_neg (by decide : ¬ ((100 : ℤ) ≤ 0))]
      show (amortTraceZ 1 1 m 100 100 0 (per + 1) (dt + 1)).length + 1 = m + 1
      rw [ih (per + 1) (dt + 1)]
  exact key n 1 1

section ClaimC1

/-- Lemma: at the non-converging spec of `c1_counterexample` the loop state
is a fixed point, so the generator never exhausts within any fuel. -/
theorem amortRun_c1_stuck :
    ∀ (fuel per dt : ℕ),
    amortRun 0 (1 : ℚ) fuel ⟨100, 100, 0⟩ per dt = none := by
  have hpy : pyRound 0 ((1 : ℚ) * 100) = 100 := by
    have h : (1 : ℚ) * 100 = ((100 : ℤ) : ℚ) := by norm_num
    rw [h]
    unfold pyRound
    rw [pow_zero, mul_one, roundHalfEven_intCast]
    norm_num
  have hstep : (amortStep 0 (1 : ℚ) ⟨100, 100, 0⟩ 0 0).2
      = (⟨100, 100, 0⟩ : MState ℚ) := by
    unfold amortStep
    dsimp only
    rw [hpy]
    norm_num [min_def]
  intro fuel
  induction fuel with
  | zero =>
    intro per dt
    unfold amortRun
    rw [if_neg (by norm_num : ¬ ((⟨100, 100, 0⟩ : MState ℚ).beg ≤ 0))]
  | succ fuel ih =>
    intro per dt
    unfold amortRun
    rw [if_neg (by norm_num : ¬ ((⟨100, 100, 0⟩ : MState ℚ).beg ≤ 0))]
    have hstep' : (amortStep 0 (1 : ℚ) ⟨100, 100, 0⟩ per dt).2
        = (⟨100, 100, 0⟩ : MState ℚ) := hstep
    show ((amortRun 0 (1 : ℚ) fuel (amortStep 0 (1 : ℚ) ⟨100, 100, 0⟩ per dt).2
        (per + 1) (dt + 1)).map
        (fun l => (amortStep 0 (1 : ℚ) ⟨100, 100, 0⟩ per dt).1 :: l)) = none
    rw [hstep', ih (per + 1) (dt + 1)]
    rfl

/-- Claim C1 is false on the code: the spec `principal = 100, term = 30
years, annual_rate = 12` is valid in the specification's sense
(`principal > 0`, `term > 0`, `rate ≥ -1`), yet the src/src/house.py loop
never terminates on it: the rounded payment (100) exactly equals the
periodic interest on the opening balance, so the balance never moves and
the guard `end_balance > 0` never fails. -/
theorem c1_counterexample :
    ValidLoanSpec 100 12 30 ∧ ¬ TerminatesV2 100 0 12 30 0 := by
  constructor
  · exact ⟨by norm_num, by norm_num, by norm_num⟩
  · rintro ⟨fuel, hs⟩
    unfold amortizeV2 at hs
    rw [monthly_paymentV2_c1] at hs
    have hr : (12 : ℚ) / 12 = 1 := by norm_num
    rw [hr, amortRun_c1_stuck fuel 1 1] at hs
    cases hs

/-- Claim C1 amended: every emitted record of a completed run has a
nonnegative `end_balance` and the final record closes at exactly 0, for
every state and rate; but termination does not hold for every valid spec —
it holds when the payment covers the largest possible rounded interest
with a positive margin `δ` (then at most `P/δ + 1` periods are needed),
while `c1_counterexample` exhibits a valid spec on which the loop runs
forever. -/
theorem c1_amended {α : Type} [LinearOrderedField α] [FloorRing α]
    (d : ℕ) (r P pmt a δ : α) (fuel per dt : ℕ) :
    (∀ recs, amortRun d r fuel ⟨P, pmt, a⟩ per dt = some recs →
      (∀ rcd ∈ recs, 0 ≤ rcd.endBalance)
      ∧ ∀ h : recs ≠ [], (recs.getLast h).endBalance = 0)
    ∧ (0 ≤ r → 0 ≤ a → 0 < δ → r * P + 1 / 2 + δ ≤ pmt → P ≤ δ * fuel →
        (amortRun d r fuel ⟨P, pmt, a⟩ per dt).isSome = true) := by
  constructor
  · intro recs hrecs
    constructor
    · intro rcd hmem
      have ht := amortRun_eq_trace d r fuel ⟨P, pmt, a⟩ per dt recs hrecs
      exact amortTrace_endBalance_nonneg d r fuel ⟨P, pmt, a⟩ per dt rcd
        (ht ▸ hmem)
    · exact amortRun_getLast_endBalance d r fuel ⟨P, pmt, a⟩ per dt recs hrecs
  · intro hr ha hδ hpmt hPf
    exact amortRun_terminates d r pmt a δ P hr ha hδ hpmt fuel P per dt
      le_rfl hPf

/-- Witness for `c1_amended`: zero rate, `P = 100`, payment 8, margin
`δ = 7`, 15 periods of fuel. -/
theorem c1_amended_witness :
    (0 : ℚ) ≤ 0 ∧ (0 : ℚ) ≤ 0 ∧ (0 : ℚ) < 7
      ∧ (0 : ℚ) * 100 + 1 / 2 + 7 ≤ 8 ∧ (100 : ℚ) ≤ 7 * (15 : ℕ)
      ∧ (amortRun 0 (0 : ℚ) 15 ⟨100, 8, 0⟩ 1 1).isSome = true :=
  ⟨le_rfl, le_rfl, by norm_num, by norm_num, by norm_num,
    (c1_amended 0 (0 : ℚ) 100 8 0 7 15 1 1).2 le_rfl le_rfl (by norm_num)
      (by norm_num) (by norm_num)⟩

end ClaimC1

section ClaimC6

/-- Lemma: every emitted record repays at most the opening balance. -/
theorem amortTrace_principal_le_beg {α : Type} [LinearOrderedField α]
    [FloorRing α] (d : ℕ) (r : α) :
    ∀ (fuel : ℕ) (s : MState α) (per dt : ℕ),
    ∀ rcd ∈ amortTrace d r fuel s per dt, rcd.principal ≤ rcd.begBalance := by
  intro fuel
  induction fuel with
  | zero => intro s per dt rcd h; cases h
  | succ fuel ih =>
    intro s per dt rcd h
    unfold amortTrace at h
    by_cases hb : s.beg ≤ 0
    · rw [if_pos hb] at h; cases h
    · rw [if_neg hb] at h
      rcases List.mem_cons.mp h with hh | hh
      · rw [hh, step_begBalance]
        exact step_principal_le_beg d r s per dt
      · exact ih _ _ _ rcd hh

/-- Claim C6 confirmed: in every emitted period the stored additional
payment equals `min(additional_monthly_payment, beg_balance - principal)`
computed from the original `additional_monthly_payment` — the `min`
reassignment of `adp` (src/house.py line 168) can only change the loop
variable in a period whose `end_balance` is exactly 0, after which the
loop stops, so a clip never carries into a later period; and when
`beg_balance - principal ≤ 0` the effective additional payment is 0. -/
theorem c6_additional_clip {α : Type} [LinearOrderedField α] [FloorRing α]
    (d : ℕ) (r P pmt addl : α) (fuel per dt : ℕ) :
    ∀ rcd ∈ amortTrace d r fuel ⟨P, pmt, addl⟩ per dt,
    rcd.additionalPayment = min addl (rcd.begBalance - rcd.principal)
      ∧ (0 ≤ addl → rcd.begBalance - rcd.principal ≤ 0 →
          rcd.additionalPayment = 0) := by
  intro rcd hmem
  have h1 := amortTrace_additional_eq d r fuel ⟨P, pmt, addl⟩ per dt rcd hmem
  refine ⟨h1, ?_⟩
  intro ha hle
  have h2 := amortTrace_principal_le_beg d r fuel ⟨P, pmt, addl⟩ per dt rcd hmem
  have hz : rcd.begBalance - rcd.principal = 0 := by linarith
  rw [h1, hz]
  exact min_eq_right ha

/-- Witness for `c6_additional_clip`: one period of the zero-rate loop from
balance 100 with payment 8 and additional payment 5. -/
theorem c6_witness :
    (⟨1, 1, 100, 8, 8, 0, 5, 87⟩ : PeriodRec ℚ)
        ∈ amortTrace 0 (0 : ℚ) 1 ⟨100, 8, 5⟩ 1 1
      ∧ ((⟨1, 1, 100, 8, 8, 0, 5, 87⟩ : PeriodRec ℚ).additionalPayment
          = min 5 ((⟨1, 1, 100, 8, 8, 0, 5, 87⟩ : PeriodRec ℚ).begBalance
              - (⟨1, 1, 100, 8, 8, 0, 5, 87⟩ : PeriodRec ℚ).principal)
        ∧ ((0 : ℚ) ≤ 5 →
            (⟨1, 1, 100, 8, 8, 0, 5, 87⟩ : PeriodRec ℚ).begBalance
              - (⟨1, 1, 100, 8, 8, 0, 5, 87⟩ : PeriodRec ℚ).principal ≤ 0 →
            (⟨1, 1, 100, 8, 8, 0, 5, 87⟩ : PeriodRec ℚ).additionalPayment
              = 0)) := by
  have hpy : pyRound 0 ((0 : ℚ) * 100) = 0 := by
    have h : (0 : ℚ) * 100 = ((0 : ℤ) : ℚ) := by norm_num
    rw [h]
    unfold pyRound
    rw [pow_zero, mul_one, roundHalfEven_intCast]
    norm_num
  have htr : amortTrace 0 (0 : ℚ) 1 ⟨100, 8, 5⟩ 1 1
      = [⟨1, 1, 100, 8, 8, 0, 5, 87⟩] := by
    unfold amortTrace
    rw [if_neg (by norm_num : ¬ ((⟨100, 8, 5⟩ : MState ℚ).beg ≤ 0))]
    unfold amortTrace amortStep
    dsimp only
    rw [hpy]
    norm_num [min_def]
  have hmem : (⟨1, 1, 100, 8, 8, 0, 5, 87⟩ : PeriodRec ℚ)
      ∈ amortTrace 0 (0 : ℚ) 1 ⟨100, 8, 5⟩ 1 1 := by
    rw [htr]
    exact List.mem_singleton.mpr rfl
  exact ⟨hmem, c6_additional_clip 0 (0 : ℚ) 100 8 5 1 1 1 _ hmem⟩

end ClaimC6

section ClaimC7

theorem optionMap_sumInterestZ_val (d : ℕ) (X : Option (List (PeriodRec ℤ)))
    (c : ℤ) (h : X.map sumInterestZ = some c) :
    X.map (fun l => ((sumInterestZ l : ℤ) : ℚ) / 10 ^ d)
      = some ((c : ℚ) / 10 ^ d) := by
  cases X with
  | none => cases h
  | some l =>
    simp only [Option.map_some', Option.some.injEq] at h ⊢
    rw [h]

/-- Claim C7 is false on the code for negative (but, per the
specification, valid) rates: with `principal = 1000`, one-year term,
`annual_rate = -0.6 ≥ -1`, raising the additional payment from 0 to 1000
shortens the schedule from 12 periods to 1 but raises total interest from
-293 to -50 (interest is negative each period, so fewer periods mean more
total interest), violating "total interest paid is no greater". -/
theorem c7_counterexample :
    ValidLoanSpec 1000 (-3/5) 1 ∧ (0 : ℚ) ≤ 0 ∧ (0 : ℚ) ≤ 1000
      ∧ (amortizeV2 (1000 : ℚ) 1000 (-3/5) 1 0 20).map sumInterest
          = some (-50)
      ∧ (amortizeV2 (1000 : ℚ) 0 (-3/5) 1 0 20).map sumInterest
          = some (-293)
      ∧ ¬ ((-50 : ℚ) ≤ -293) := by
  refine ⟨⟨by norm_num, by norm_num, by norm_num⟩, le_rfl, by norm_num,
    ?_, ?_, by norm_num⟩
  · rw [amortizeV2_eq_scaled 1000 1000 (-3/5) 1 0 20 (-1) 20 1000 1000 59
      (by norm_num) (by norm_num) (by norm_num) (by norm_num)
      monthly_paymentV2_c7]
    rw [optionMap_sumInterest_unscale]
    rw [optionMap_sumInterestZ_val 0 _ (-50)
      (by decide : (amortRunZ (-1) 20 20 1000 59 1000 1 (0 + 1)).map
        sumInterestZ = some (-50))]
    norm_num
  · rw [amortizeV2_eq_scaled 1000 0 (-3/5) 1 0 20 (-1) 20 1000 0 59
      (by norm_num) (by norm_num) (by norm_num) (by norm_num)
      monthly_paymentV2_c7]
    rw [optionMap_sumInterest_unscale]
    rw [optionMap_sumInterestZ_val 0 _ (-293)
      (by decide : (amortRunZ (-1) 20 20 1000 59 0 1 (0 + 1)).map
        sumInterestZ = some (-293))]
    norm_num

/-- Claim C7 amended: for nonnegative annual rates the monotonicity does
hold — holding every other field fixed, a larger additional payment never
yields more periods and never yields more total interest, at every fuel
bound of the src/src/house.py loop. -/
theorem c7_amended (P a1 a2 rate : ℚ) (years today fuel : ℕ)
    (hrate : 0 ≤ rate) (ha1 : 0 ≤ a1) (ha : a1 ≤ a2) :
    (amortizeV2T P a2 rate years today fuel).length
        ≤ (amortizeV2T P a1 rate years today fuel).length
      ∧ sumInterest (amortizeV2T P a2 rate years today fuel)
        ≤ sumInterest (amortizeV2T P a1 rate years today fuel) := by
  unfold amortizeV2T
  have hr12 : (0 : ℚ) ≤ rate / 12 := by positivity
  exact amortTrace_coupling 0 (rate / 12) hr12
    (monthly_paymentV2 rate years P) fuel P P a1 a2 1 (today + 1)
    ha1 ha le_rfl

/-- Witness for `c7_amended` at the concrete scenario with additional
payments 0 and 10. -/
theorem c7_amended_witness :
    (0 : ℚ) ≤ 1/25 ∧ (0 : ℚ) ≤ 0 ∧ (0 : ℚ) ≤ 10
      ∧ ((amortizeV2T (300000 : ℚ) 10 (1/25) 30 0 400).length
          ≤ (amortizeV2T (300000 : ℚ) 0 (1/25) 30 0 400).length
        ∧ sumInterest (amortizeV2T (300000 : ℚ) 10 (1/25) 30 0 400)
          ≤ sumInterest (amortizeV2T (300000 : ℚ) 0 (1/25) 30 0 400)) :=
  ⟨by norm_num, le_rfl, by norm_num,
    c7_amended 300000 0 10 (1/25) 30 0 400 (by norm_num) le_rfl (by norm_num)⟩

end ClaimC7

section ClaimC8

/-- Claim C8 is false on the code: at the specification's own concrete
scenario (`principal = 300000`, `annual_rate = 0.04`, 30 years, no
additional payment) the src/src/house.py schedule has 361 periods — one
more than `term_years * 12 = 360` — because the payment rounds down to
1432 and falls short of level amortization. -/
theorem c8_counterexample :
    ValidLoanSpec 300000 (1/25) 30
      ∧ (amortizeV2 (300000 : ℚ) 0 (1/25) 30 0 400).map List.length
          = some 361
      ∧ ¬ ((361 : ℕ) ≤ 30 * 12) := by
  refine ⟨⟨by norm_num, by norm_num, by norm_num⟩, ?_, by norm_num⟩
  rw [amortizeV2_eq_scaled 300000 0 (1/25) 30 0 400 1 300 300000 0 1432
    (by norm_num) (by norm_num) (by norm_num) (by norm_num)
    monthly_paymentV2_c8]
  rw [optionMap_length_unscale]
  decide

/-- Claim C8 amended: the schedule can exceed `term_years * 12` — at the
concrete scenario it has exactly 361 = 30*12 + 1 periods — while the second
half of the claim stands: additional payments only shorten the schedule
(any additional payment `a ≥ 0` yields at most those 361 periods). -/
theorem c8_amended :
    (amortizeV2T (300000 : ℚ) 0 (1/25) 30 0 400).length = 361
      ∧ ∀ a : ℚ, 0 ≤ a →
        (amortizeV2T (300000 : ℚ) a (1/25) 30 0 400).length ≤ 361 := by
  have hlen : (amortizeV2T (300000 : ℚ) 0 (1/25) 30 0 400).length = 361 := by
    rw [amortizeV2T_eq_scaled 300000 0 (1/25) 30 0 400 1 300 300000 0 1432
      (by norm_num) (by norm_num) (by norm_num) (by norm_num)
      monthly_paymentV2_c8]
    rw [List.length_map]
    decide
  refine ⟨hlen, ?_⟩
  intro a ha
  have hcpl := amortTrace_coupling 0 ((1/25 : ℚ) / 12) (by norm_num)
    (monthly_paymentV2 (1/25) 30 300000) 400 300000 300000 0 a 1 1
    le_rfl ha le_rfl
  calc (amortizeV2T (300000 : ℚ) a (1/25) 30 0 400).length
      ≤ (amortizeV2T (300000 : ℚ) 0 (1/25) 30 0 400).length := hcpl.1
    _ = 361 := hlen

/-- Witness for `c8_amended` at `a = 5`. -/
theorem c8_amended_witness :
    (0 : ℚ) ≤ 5
      ∧ (amortizeV2T (300000 : ℚ) 5 (1/25) 30 0 400).length ≤ 361 :=
  ⟨by norm_num, (c8_amended).2 5 (by norm_num)⟩

end ClaimC8

section ClaimC2

/-- Claim C2 is false on the code: at the scenario rate 0.04 there is no
single periodic rate serving both computations — `monthly_payment`
(src/house.py line 110) derives `(1 + 0.04)^(1/12) - 1`, whose 12th power
of `1 + r` is `26/25`, while the amortize loop (lines 149-150) derives
`(1 + 0.04/2)^(2/12) - 1`, whose 12th power of `1 + r` is `(51/50)^2`;
`26/25 ≠ (51/50)^2`, so no real rate satisfies both characterizations. -/
theorem c2_counterexample :
    ¬ ∃ r : ℝ, PayRateV1 (1/25) r ∧ LoopRateV1 (1/25) r := by
  rintro ⟨r, ⟨-, hp⟩, ⟨-, hl⟩⟩
  rw [hp] at hl
  norm_num at hl

/-- Claim C2 amended: `monthly_payment` converts the annual rate by
`(1+rate)^(1/12) - 1` while the amortize loop converts it by
`(1+rate/2)^(2/12) - 1`; the two conversions coincide only for
`annual_rate = 0` (where both periodic rates are 0), so for every nonzero
rate the payment and the schedule use different periodic rates. -/
theorem c2_amended (rate r : ℝ) :
    (PayRateV1 rate r ∧ LoopRateV1 rate r) ↔ (rate = 0 ∧ r = 0) := by
  constructor
  · rintro ⟨⟨hr1, hp⟩, ⟨-, hl⟩⟩
    have hsq : 1 + rate = (1 + rate / 2) ^ (2 : ℕ) := by
      rw [← hp, hl]
    have hrate : rate = 0 := by
      have h2 : rate ^ 2 = 0 := by nlinarith [hsq]
      exact pow_eq_zero_iff (by norm_num) |>.mp h2
    subst hrate
    refine ⟨rfl, ?_⟩
    have hp1 : (1 + r) ^ (12 : ℕ) = 1 := by
      rw [hp]; norm_num
    have hpos : (0 : ℝ) < 1 + r := by linarith
    rcases lt_trichotomy r 0 with h | h | h
    · exfalso
      have hlt : (1 + r) ^ (12 : ℕ) < 1 ^ (12 : ℕ) :=
        pow_lt_pow_left (by linarith) hpos.le (by norm_num)
      rw [hp1, one_pow] at hlt
      exact lt_irrefl 1 hlt
    · exact h
    · exfalso
      have hlt : (1 : ℝ) ^ (12 : ℕ) < (1 + r) ^ (12 : ℕ) :=
        pow_lt_pow_left (by linarith) (by norm_num) (by norm_num)
      rw [hp1, one_pow] at hlt
      exact lt_irrefl 1 hlt
  · rintro ⟨hrate, hr⟩
    subst hrate
    subst hr
    exact ⟨⟨by norm_num, by norm_num⟩, by norm_num, by norm_num⟩

end ClaimC2

section IntervalRunner

theorem amortRunZI_sound (lo hi rd : ℤ) :
    ∀ (fuel : ℕ) (B Pm A : ℤ) (per dt : ℕ) (L : List (PeriodRec ℤ)),
    amortRunZI lo hi rd fuel B Pm A per dt = some L →
    amortRunZ lo rd fuel B Pm A per dt = some L
      ∧ amortRunZ hi rd fuel B Pm A per dt = some L := by
  intro fuel
  induction fuel with
  | zero =>
    intro B Pm A per dt L h
    unfold amortRunZI at h
    by_cases hB : B ≤ 0
    · rw [if_pos hB] at h
      cases h
      constructor <;> (unfold amortRunZ; rw [if_pos hB])
    · rw [if_neg hB] at h
      cases h
  | succ fuel ih =>
    intro B Pm A per dt L h
    unfold amortRunZI at h
    by_cases hB : B ≤ 0
    · rw [if_pos hB] at h
      cases h
      constructor <;> (unfold amortRunZ; rw [if_pos hB])
    · rw [if_neg hB] at h
      by_cases hI : zround (hi * B) rd = zround (lo * B) rd
      · rw [if_pos hI] at h
        rcases Option.map_eq_some'.mp h with ⟨tl, htl, hcons⟩
        rcases ih _ _ _ _ _ _ htl with ⟨hzl, hzu⟩
        have hstepEq : amortStepZ hi rd B Pm A per dt
            = amortStepZ lo rd B Pm A per dt := by
          unfold amortStepZ
          rw [hI]
        constructor
        · unfold amortRunZ
          rw [if_neg hB]
          show (amortRunZ lo rd fuel (amortStepZ lo rd B Pm A per dt).2.1
              (amortStepZ lo rd B Pm A per dt).2.2.1
              (amortStepZ lo rd B Pm A per dt).2.2.2 (per + 1) (dt + 1)).map
              (fun l => (amortStepZ lo rd B Pm A per dt).1 :: l) = some L
          rw [hzl, ← hcons]
          rfl
        · unfold amortRunZ
          rw [if_neg hB]
          show (amortRunZ hi rd fuel (amortStepZ hi rd B Pm A per dt).2.1
              (amortStepZ hi rd B Pm A per dt).2.2.1
              (amortStepZ hi rd B Pm A per dt).2.2.2 (per + 1) (dt + 1)).map
              (fun l => (amortStepZ hi rd B Pm A per dt).1 :: l) = some L
          rw [hstepEq, hzu, ← hcons]
          rfl
      · rw [if_neg hI] at h
        cases h

end IntervalRunner

section ClaimC3

/-- At the concrete scenario, the payment of src/house.py is exactly
1419.91: the periodic rate `r` there satisfies `(1+r)^12 = 26/25`, so
`(1+r)^360 = (26/25)^30` is rational and the npf.pmt value is `-C*r` for a
rational constant `C`; rational bounds on `r` pin `round(.,2)` down. -/
theorem monthly_paymentV1_scenario (r : ℝ) (h : PayRateV1 (1/25) r) :
    monthly_paymentV1 r 30 (300000 : ℝ) = 141991/100 := by
  obtain ⟨hr1, hp⟩ := h
  have h2625 : (1 + r) ^ (12 : ℕ) = 26/25 := by rw [hp]; norm_num
  have hpos : (0 : ℝ) < 1 + r := by linarith
  have hl12 : ((1 : ℝ) + 3273739782197/10^15) ^ (12 : ℕ) < 26/25 := by norm_num
  have hu12 : (26/25 : ℝ) < ((1 : ℝ) + 3273739782199/10^15) ^ (12 : ℕ) := by
    norm_num
  have hrl : (3273739782197/10^15 : ℝ) < r := by
    by_contra hcon
    push_neg at hcon
    have hmono : (1 + r) ^ (12 : ℕ)
        ≤ ((1 : ℝ) + 3273739782197/10^15) ^ (12 : ℕ) :=
      pow_le_pow_left hpos.le (by linarith) 12
    rw [h2625] at hmono
    linarith
  have hru : r < (3273739782199/10^15 : ℝ) := by
    by_contra hcon
    push_neg at hcon
    have hmono : ((1 : ℝ) + 3273739782199/10^15) ^ (12 : ℕ)
        ≤ (1 + r) ^ (12 : ℕ) :=
      pow_le_pow_left (by norm_num) (by linarith) 12
    rw [h2625] at hmono
    linarith
  have hr0 : r ≠ 0 := by
    intro hz
    rw [hz] at h2625
    norm_num at h2625
  unfold monthly_paymentV1 npf_pmt
  rw [if_neg hr0, show (30 * 12 : ℕ) = 12 * 30 by norm_num, pow_mul, h2625]
  set K : ℝ := ((26 : ℝ)/25) ^ (30 : ℕ) with hK
  have hK1 : (1 : ℝ) < K := by rw [hK]; norm_num
  have hXeq : -(300000 * r * K / (K - 1)) = (-(300000 * K / (K - 1))) * r := by
    ring
  have hCpos : (0 : ℝ) < 300000 * K / (K - 1) :=
    div_pos (by linarith) (by linarith)
  set qlo : ℚ := -(300000 * ((26 : ℚ)/25) ^ (30 : ℕ)
      / (((26 : ℚ)/25) ^ (30 : ℕ) - 1)) * (3273739782199/10^15) with hqlo
  set qhi : ℚ := -(300000 * ((26 : ℚ)/25) ^ (30 : ℕ)
      / (((26 : ℚ)/25) ^ (30 : ℕ) - 1)) * (3273739782197/10^15) with hqhi
  have hcast_lo : ((qlo : ℚ) : ℝ)
      = (-(300000 * K / (K - 1))) * (3273739782199/10^15 : ℝ) := by
    rw [hqlo, hK]
    push_cast
    ring
  have hcast_hi : ((qhi : ℚ) : ℝ)
      = (-(300000 * K / (K - 1))) * (3273739782197/10^15 : ℝ) := by
    rw [hqhi, hK]
    push_cast
    ring
  have hXlo : ((qlo : ℚ) : ℝ) ≤ -(300000 * r * K / (K - 1)) := by
    rw [hcast_lo, hXeq]
    have := mul_lt_mul_of_pos_left hru hCpos
    linarith
  have hXhi : -(300000 * r * K / (K - 1)) ≤ ((qhi : ℚ) : ℝ) := by
    rw [hcast_hi, hXeq]
    have := mul_lt_mul_of_pos_left hrl hCpos
    linarith
  have hqlofrac : qlo = ((-(300000 * 26 ^ 30 * 3273739782199) : ℤ) : ℚ)
      / (((26 ^ 30 - 25 ^ 30) * 10 ^ 15 : ℤ) : ℚ) := by
    rw [hqlo]
    push_cast
    norm_num
  have hqhifrac : qhi = ((-(300000 * 26 ^ 30 * 3273739782197) : ℤ) : ℚ)
      / (((26 ^ 30 - 25 ^ 30) * 10 ^ 15 : ℤ) : ℚ) := by
    rw [hqhi]
    push_cast
    norm_num
  have hDpos : (0 : ℤ) < (26 ^ 30 - 25 ^ 30) * 10 ^ 15 := by decide
  have hplo : pyRound 2 qlo = -141991/100 := by
    rw [hqlofrac, pyRound_intCast_div 2 _ _ hDpos]
    have hz : zround (-(300000 * 26 ^ 30 * 3273739782199) * 10 ^ 2)
        ((26 ^ 30 - 25 ^ 30) * 10 ^ 15) = -141991 := by decide
    rw [hz]
    norm_num
  have hphi : pyRound 2 qhi = -141991/100 := by
    rw [hqhifrac, pyRound_intCast_div 2 _ _ hDpos]
    have hz : zround (-(300000 * 26 ^ 30 * 3273739782197) * 10 ^ 2)
        ((26 ^ 30 - 25 ^ 30) * 10 ^ 15) = -141991 := by decide
    rw [hz]
    norm_num
  have hm1 : ((pyRound 2 qlo : ℚ) : ℝ)
      ≤ pyRound 2 (-(300000 * r * K / (K - 1))) := by
    rw [← pyRound_ratCast]
    exact pyRound_mono 2 hXlo
  have hm2 : pyRound 2 (-(300000 * r * K / (K - 1)))
      ≤ ((pyRound 2 qhi : ℚ) : ℝ) := by
    rw [← pyRound_ratCast]
    exact pyRound_mono 2 hXhi
  rw [hplo] at hm1
  rw [hphi] at hm2
  have hfin : pyRound 2 (-(300000 * r * K / (K - 1)))
      = ((-141991/100 : ℚ) : ℝ) := le_antisymm hm2 hm1
  rw [hfin]
  push_cast
  norm_num

/-- Claim C3 is false on the code: for the concrete scenario the
src/house.py `required_monthly_payment` is 1419.91, not ≈ 1432.25 (the
spec's figure matches the other variant's annuity value before rounding);
no real satisfying the code's rate conversion brings the payment within
0.5 of the claimed figure. -/
theorem c3_counterexample :
    ¬ ∃ r : ℝ, PayRateV1 (1/25) r
      ∧ |monthly_paymentV1 r 30 (300000 : ℝ) - 1432.25| ≤ 1/2 := by
  rintro ⟨r, hpr, habs⟩
  rw [monthly_paymentV1_scenario r hpr] at habs
  rw [abs_le] at habs
  rcases habs with ⟨h1, -⟩
  norm_num at h1

set_option maxHeartbeats 100000000 in
/-- Claim C3 amended, with the values the code actually produces at
`principal = 300000`, `annual_rate = 0.04`, 30 years, no additional
payment: `required_monthly_payment = 1419.91`; the schedule has 364
periods (not 360); the first period has `interest = 991.77`,
`principal = 428.14`, `payment = 1419.91` and `end_balance = 299571.86`. -/
theorem c3_amended (rp rl : ℝ) (hp : PayRateV1 (1/25) rp)
    (hl : LoopRateV1 (1/25) rl) :
    monthly_paymentV1 rp 30 (300000 : ℝ) = 141991/100
      ∧ ∃ recs : List (PeriodRec ℝ),
        amortizeV1 (300000 : ℝ) 0 30 rp rl 0 400 = some recs
          ∧ recs.length = 364
          ∧ ∃ rcd, recs.head? = some rcd
              ∧ rcd.begBalance = 300000
              ∧ rcd.payment = 141991/100
              ∧ rcd.principal = 42814/100
              ∧ rcd.interest = 99177/100
              ∧ rcd.additionalPayment = 0
              ∧ rcd.endBalance = 29957186/100 := by
  obtain ⟨hl1, hl12eq⟩ := hl
  have h12 : (1 + rl) ^ (12 : ℕ) = 2601/2500 := by
    rw [hl12eq]
    norm_num
  have hpos : (0 : ℝ) < 1 + rl := by linarith
  have hbl : ((1 : ℝ) + 33058903246372019414945/10^25) ^ (12 : ℕ)
      < 2601/2500 := by norm_num
  have hbu : (2601/2500 : ℝ)
      < ((1 : ℝ) + 33058903246372019414947/10^25) ^ (12 : ℕ) := by norm_num
  have hrll : (33058903246372019414945/10^25 : ℝ) < rl := by
    by_contra hcon
    push_neg at hcon
    have hmono : (1 + rl) ^ (12 : ℕ)
        ≤ ((1 : ℝ) + 33058903246372019414945/10^25) ^ (12 : ℕ) :=
      pow_le_pow_left hpos.le (by linarith) 12
    rw [h12] at hmono
    linarith
  have hrlu : rl < (33058903246372019414947/10^25 : ℝ) := by
    by_contra hcon
    push_neg at hcon
    have hmono : ((1 : ℝ) + 33058903246372019414947/10^25) ^ (12 : ℕ)
        ≤ (1 + rl) ^ (12 : ℕ) :=
      pow_le_pow_left (by norm_num) (by linarith) 12
    rw [h12] at hmono
    linarith
  have hpm := monthly_paymentV1_scenario rp hp
  refine ⟨hpm, ?_⟩
  -- evaluate the two rational bound runs through the integer-scaled engine
  have h25pos : (0 : ℤ) < 10 ^ 25 := by positivity
  have hinfo : (amortRunZI 33058903246372019414945 33058903246372019414947
      (10 ^ 25) 400 30000000 141991 0 1 1).map
        (fun l => (List.length l, List.head? l))
      = some (364, some ⟨1, 1, 30000000, 141991, 42814, 99177, 0,
          29957186⟩) := by decide
  rcases Option.map_eq_some'.mp hinfo with ⟨LZ, hLZ, hpair⟩
  have hlen : LZ.length = 364 := (Prod.mk.injEq _ _ _ _ ▸ hpair).1
  have hhead : LZ.head?
      = some ⟨1, 1, 30000000, 141991, 42814, 99177, 0, 29957186⟩ :=
    (Prod.mk.injEq _ _ _ _ ▸ hpair).2
  rcases amortRunZI_sound 33058903246372019414945 33058903246372019414947
    (10 ^ 25) 400 30000000 141991 0 1 1 LZ hLZ with ⟨hZL, hZU⟩
  have hstate : (⟨300000, 141991/100, 0⟩ : MState ℚ)
      = ⟨((30000000 : ℤ) : ℚ) / 10 ^ 2, ((141991 : ℤ) : ℚ) / 10 ^ 2,
         ((0 : ℤ) : ℚ) / 10 ^ 2⟩ := by
    norm_num
  have Hl : amortRun 2 (((33058903246372019414945 : ℤ) : ℚ) / ((10 ^ 25 : ℤ) : ℚ))
      400 ⟨300000, 141991/100, 0⟩ 1 1
      = some (LZ.map (unscaleRec 2)) := by
    rw [hstate, amortRun_eq_scaled 2 33058903246372019414945 (10 ^ 25)
      h25pos 400 30000000 141991 0 1 1, hZL]
    rfl
  have Hu : amortRun 2 (((33058903246372019414947 : ℤ) : ℚ) / ((10 ^ 25 : ℤ) : ℚ))
      400 ⟨300000, 141991/100, 0⟩ 1 1
      = some (LZ.map (unscaleRec 2)) := by
    rw [hstate, amortRun_eq_scaled 2 33058903246372019414947 (10 ^ 25)
      h25pos 400 30000000 141991 0 1 1, hZU]
    rfl
  have hcl : ((((33058903246372019414945 : ℤ) : ℚ)
      / ((10 ^ 25 : ℤ) : ℚ) : ℚ) : ℝ) ≤ rl := by
    push_cast
    push_cast at hrll
    linarith
  have hcu : rl ≤ ((((33058903246372019414947 : ℤ) : ℚ)
      / ((10 ^ 25 : ℤ) : ℚ) : ℚ) : ℝ) := by
    push_cast
    push_cast at hrlu
    linarith
  have hreal := amortRun_interval 2 _ _ rl hcl hcu 400 300000 (141991/100) 0
    1 1 (LZ.map (unscaleRec 2)) Hl Hu
  refine ⟨(LZ.map (unscaleRec 2)).map castRec, ?_, ?_, ?_⟩
  · unfold amortizeV1
    rw [hpm]
    have hstR : (⟨(300000 : ℝ), (141991/100 : ℝ), (0 : ℝ)⟩ : MState ℝ)
        = ⟨((300000 : ℚ) : ℝ), ((141991/100 : ℚ) : ℝ), ((0 : ℚ) : ℝ)⟩ := by
      norm_num
    rw [hstR]
    exact hreal
  · simp [hlen]
  · refine ⟨castRec (unscaleRec 2 ⟨1, 1, 30000000, 141991, 42814, 99177, 0,
      29957186⟩), ?_, ?_, ?_, ?_, ?_, ?_, ?_⟩
    · rw [List.head?_map, List.head?_map, hhead]
      rfl
    · show ((((30000000 : ℤ) : ℚ) / 10 ^ 2 : ℚ) : ℝ) = 300000
      norm_num
    · show ((((141991 : ℤ) : ℚ) / 10 ^ 2 : ℚ) : ℝ) = 141991/100
      norm_num
    · show ((((42814 : ℤ) : ℚ) / 10 ^ 2 : ℚ) : ℝ) = 42814/100
      norm_num
    · show ((((99177 : ℤ) : ℚ) / 10 ^ 2 : ℚ) : ℝ) = 99177/100
      norm_num
    · show ((((0 : ℤ) : ℚ) / 10 ^ 2 : ℚ) : ℝ) = 0
      norm_num
    · show ((((29957186 : ℤ) : ℚ) / 10 ^ 2 : ℚ) : ℝ) = 29957186/100
      norm_num

end ClaimC3

/-- Witness for `c3_amended`: the concrete real rates
`(26/25)^(1/12) - 1` and `(51/50)^(1/6) - 1` satisfy the two rate
characterizations. -/
theorem c3_amended_witness :
    PayRateV1 (1/25) ((26/25 : ℝ) ^ ((1 : ℝ)/12) - 1)
      ∧ LoopRateV1 (1/25) ((51/50 : ℝ) ^ ((1 : ℝ)/6) - 1)
      ∧ (monthly_paymentV1 ((26/25 : ℝ) ^ ((1 : ℝ)/12) - 1) 30 (300000 : ℝ)
            = 141991/100
          ∧ ∃ recs : List (PeriodRec ℝ),
            amortizeV1 (300000 : ℝ) 0 30 ((26/25 : ℝ) ^ ((1 : ℝ)/12) - 1)
                ((51/50 : ℝ) ^ ((1 : ℝ)/6) - 1) 0 400 = some recs
              ∧ recs.length = 364
              ∧ ∃ rcd, recs.head? = some rcd
                  ∧ rcd.begBalance = 300000
                  ∧ rcd.payment = 141991/100
                  ∧ rcd.principal = 42814/100
                  ∧ rcd.interest = 99177/100
                  ∧ rcd.additionalPayment = 0
                  ∧ rcd.endBalance = 29957186/100) := by
  have hrpow12 : ((26/25 : ℝ) ^ ((1 : ℝ)/12)) ^ (12 : ℕ) = 26/25 := by
    rw [← Real.rpow_natCast ((26/25 : ℝ) ^ ((1 : ℝ)/12)) 12,
      ← Real.rpow_mul (by norm_num : (0 : ℝ) ≤ 26/25)]
    norm_num
  have hrpow6 : ((51/50 : ℝ) ^ ((1 : ℝ)/6)) ^ (12 : ℕ) = (51/50) ^ (2 : ℕ) := by
    rw [← Real.rpow_natCast ((51/50 : ℝ) ^ ((1 : ℝ)/6)) 12,
      ← Real.rpow_mul (by norm_num : (0 : ℝ) ≤ 51/50)]
    rw [show ((1 : ℝ)/6) * ((12 : ℕ) : ℝ) = ((2 : ℕ) : ℝ) by norm_num]
    rw [Real.rpow_natCast]
  have hp : PayRateV1 (1/25) ((26/25 : ℝ) ^ ((1 : ℝ)/12) - 1) := by
    constructor
    · have := Real.rpow_pos_of_pos (by norm_num : (0 : ℝ) < 26/25) ((1 : ℝ)/12)
      linarith
    · rw [show (1 : ℝ) + ((26/25 : ℝ) ^ ((1 : ℝ)/12) - 1)
          = (26/25 : ℝ) ^ ((1 : ℝ)/12) by ring, hrpow12]
      norm_num
  have hl : LoopRateV1 (1/25) ((51/50 : ℝ) ^ ((1 : ℝ)/6) - 1) := by
    constructor
    · have := Real.rpow_pos_of_pos (by norm_num : (0 : ℝ) < 51/50) ((1 : ℝ)/6)
      linarith
    · rw [show (1 : ℝ) + ((51/50 : ℝ) ^ ((1 : ℝ)/6) - 1)
          = (51/50 : ℝ) ^ ((1 : ℝ)/6) by ring, hrpow6]
      norm_num
  exact ⟨hp, hl, c3_amended _ _ hp hl⟩
